import Mathlib

/-!
Verification development for the `drift-proxy` server (`src/server.js`).

The JavaScript source is shallowly embedded: every server-side function that
the checked claims touch is translated into an executable Lean definition over
`List Char` / `String`, and the platform primitives the source calls
(`encodeURIComponent`, `decodeURIComponent`, the WHATWG `URL` constructor) are
modelled by executable definitions that agree with the platform on the
character subsets exercised here (out-of-subset inputs make the URL model
return `none`, the model of a thrown `TypeError`).
-/

namespace Drift

/-! ## Characters and hex digits -/

/-- The unreserved characters of `encodeURIComponent`
(`A-Z a-z 0-9 - _ . ! ~ * ' ( )`), which it emits unescaped. -/
def isUnreservedUri (c : Char) : Bool :=
  let n := c.toNat
  (65 ≤ n && n ≤ 90) || (97 ≤ n && n ≤ 122) || (48 ≤ n && n ≤ 57) ||
    n == 45 || n == 95 || n == 46 || n == 33 || n == 126 || n == 42 ||
    n == 39 || n == 40 || n == 41

/-- Upper-case hexadecimal digit for a value `< 16`
(`encodeURIComponent` emits upper-case hex). -/
def hexUpper (n : Nat) : Char :=
  if n < 10 then Char.ofNat (48 + n) else Char.ofNat (55 + n)

/-- Numeric value of a hexadecimal digit, either case
(`decodeURIComponent` accepts both cases). -/
def hexVal (c : Char) : Option Nat :=
  let n := c.toNat
  if 48 ≤ n ∧ n ≤ 57 then some (n - 48)
  else if 65 ≤ n ∧ n ≤ 70 then some (n - 55)
  else if 97 ≤ n ∧ n ≤ 102 then some (n - 87)
  else none

/-! ## UTF-8 / percent encoding (`encodeURIComponent`) -/

/-- UTF-8 bytes of a Unicode scalar value (as `Nat`s `< 256`). -/
def utf8Bytes (v : Nat) : List Nat :=
  if v < 0x80 then [v]
  else if v < 0x800 then [0xC0 + v / 64, 0x80 + v % 64]
  else if v < 0x10000 then
    [0xE0 + v / 4096, 0x80 + v / 64 % 64, 0x80 + v % 64]
  else
    [0xF0 + v / 262144, 0x80 + v / 4096 % 64, 0x80 + v / 64 % 64, 0x80 + v % 64]

/-- `%XY` escape of one byte. -/
def pctByte (b : Nat) : List Char :=
  ['%', hexUpper (b / 16), hexUpper (b % 16)]

/-- `encodeURIComponent` on one character: unreserved characters pass through,
everything else becomes the `%XY` escapes of its UTF-8 bytes. -/
def encChar (c : Char) : List Char :=
  if isUnreservedUri c then [c] else (utf8Bytes c.toNat).flatMap pctByte

/-- Model of JavaScript `encodeURIComponent` (on the characters' list). -/
def encodeUriComponentL (s : List Char) : List Char :=
  s.flatMap encChar

/-- Model of JavaScript `encodeURIComponent`. -/
def encodeUriComponent (s : String) : String :=
  ⟨encodeUriComponentL s.data⟩

/-- A Unicode scalar value as a `Char`, or `none` when out of range
(surrogates / beyond `0x10FFFF`); `decodeURIComponent` throws `URIError`
in the `none` cases. -/
def charOfScalar (v : Nat) : Option Char :=
  if h : v.isValidChar then some (Char.ofNatAux v h) else none

/-- Stage one of ECMA-262 `Decode`: replace every `%XY` escape by its byte
value (a lone or malformed `%` throws, i.e. `none`); other characters pass
through. -/
def pctItems : List Char → Option (List (Char ⊕ Nat))
  | [] => some []
  | c :: t =>
    if c = '%' then
      match t with
      | c1 :: c2 :: t2 =>
        match hexVal c1, hexVal c2 with
        | some h1, some h2 => (pctItems t2).map (Sum.inr (h1 * 16 + h2) :: ·)
        | _, _ => none
      | _ => none
    else (pctItems t).map (Sum.inl c :: ·)

/-- Stage two of ECMA-262 `Decode`: assemble runs of escaped bytes into UTF-8
sequences with strict validation (no overlong forms, no surrogates,
continuation bytes must themselves come from escapes); `none` models the
thrown `URIError`.  The state carries a partially read sequence:
accumulated value, continuation bytes still expected, and the least value the
sequence may decode to (overlong rejection). -/
def utf8SM (st : Option (Nat × Nat × Nat)) : List (Char ⊕ Nat) → Option (List Char)
  | [] =>
    match st with
    | none => some []
    | some _ => none
  | Sum.inl c :: t =>
    match st with
    | none => (utf8SM none t).map (c :: ·)
    | some _ => none
  | Sum.inr b :: t =>
    match st with
    | none =>
      if b < 0x80 then (charOfScalar b).bind fun ch => (utf8SM none t).map (ch :: ·)
      else if 0xC2 ≤ b ∧ b ≤ 0xDF then utf8SM (some (b - 0xC0, 1, 0x80)) t
      else if 0xE0 ≤ b ∧ b ≤ 0xEF then utf8SM (some (b - 0xE0, 2, 0x800)) t
      else if 0xF0 ≤ b ∧ b ≤ 0xF4 then utf8SM (some (b - 0xF0, 3, 0x10000)) t
      else none
    | some (acc, need, minv) =>
      if 0x80 ≤ b ∧ b ≤ 0xBF then
        if need = 1 then
          if minv ≤ acc * 64 + (b - 0x80) then
            (charOfScalar (acc * 64 + (b - 0x80))).bind fun ch =>
              (utf8SM none t).map (ch :: ·)
          else none
        else utf8SM (some (acc * 64 + (b - 0x80), need - 1, minv)) t
      else none

/-- Model of JavaScript `decodeURIComponent` (ECMA-262 `Decode`). -/
def decodeUriComponentL (l : List Char) : Option (List Char) :=
  (pctItems l).bind (utf8SM none)

/-- Model of JavaScript `decodeURIComponent`. -/
def decodeUriComponent (s : String) : Option String :=
  (decodeUriComponentL s.data).map fun l => ⟨l⟩

/-! ## Round trip: `decodeURIComponent ∘ encodeURIComponent = id` -/

theorem hexVal_hexUpper : ∀ n < 16, hexVal (hexUpper n) = some n := by decide

theorem charOfScalar_eq (v : Nat) (h : v.isValidChar) :
    charOfScalar v = some (Char.ofNat v) := by
  rw [charOfScalar, dif_pos h, Char.ofNat, dif_pos h]

theorem charOfScalar_toNat (c : Char) : charOfScalar c.toNat = some c := by
  have hv : c.toNat.isValidChar := c.valid
  rw [charOfScalar_eq _ hv]
  have h2 : Char.ofNat c.toNat = c := Char.ofNat_toNat c
  rw [h2]

theorem utf8Bytes_lt {v : Nat} (hv : v < 0x110000) : ∀ b ∈ utf8Bytes v, b < 256 := by
  intro b hb
  rw [utf8Bytes] at hb
  split at hb
  · simp only [List.mem_singleton] at hb
    omega
  · split at hb
    · simp only [List.mem_cons, List.not_mem_nil, or_false] at hb
      rcases hb with h | h <;> omega
    · split at hb
      · simp only [List.mem_cons, List.not_mem_nil, or_false] at hb
        rcases hb with h | h | h <;> omega
      · simp only [List.mem_cons, List.not_mem_nil, or_false] at hb
        rcases hb with h | h | h | h <;> omega

theorem hexUpper_range : ∀ n < 16,
    (48 ≤ (hexUpper n).toNat ∧ (hexUpper n).toNat ≤ 57) ∨
      (65 ≤ (hexUpper n).toNat ∧ (hexUpper n).toNat ≤ 70) := by decide

theorem pctItems_pctByte (b : Nat) (hb : b < 256) (rest : List Char) :
    pctItems (pctByte b ++ rest) = (pctItems rest).map (Sum.inr b :: ·) := by
  have h1 : b / 16 < 16 := by omega
  have h2 : b % 16 < 16 := by omega
  have h3 : b / 16 * 16 + b % 16 = b := by omega
  simp only [pctByte, List.cons_append, List.nil_append, pctItems, if_pos rfl,
    hexVal_hexUpper _ h1, hexVal_hexUpper _ h2, h3, if_true]
  rfl

/-- Items of one encoded character: the character itself when unreserved,
otherwise its escaped UTF-8 bytes. -/
def encItemsChar (c : Char) : List (Char ⊕ Nat) :=
  if isUnreservedUri c then [Sum.inl c] else (utf8Bytes c.toNat).map Sum.inr

theorem pctItems_encChar (c : Char) (rest : List Char) :
    pctItems (encChar c ++ rest) =
      (pctItems rest).map (encItemsChar c ++ ·) := by
  by_cases hu : isUnreservedUri c
  · have hpc : c ≠ '%' := by
      intro h
      rw [h] at hu
      exact absurd hu (by decide)
    rw [show encChar c = [c] from by simp [encChar, hu],
      show encItemsChar c = [Sum.inl c] from by simp [encItemsChar, hu]]
    simp only [List.singleton_append]
    rw [pctItems.eq_def]
    dsimp only
    rw [if_neg hpc]
  · rw [show encChar c = (utf8Bytes c.toNat).flatMap pctByte from by
      simp [encChar, hu],
      show encItemsChar c = (utf8Bytes c.toNat).map Sum.inr from by
      simp [encItemsChar, hu]]
    have hv : c.toNat < 0x110000 := by
      have h := c.valid
      rcases h with h | ⟨h1, h2⟩
      · exact Nat.lt_trans h (by norm_num)
      · exact h2
    have hlt := utf8Bytes_lt hv
    generalize utf8Bytes c.toNat = BS at hlt ⊢
    revert hlt
    induction BS with
    | nil =>
      intro _
      simp only [List.flatMap_nil, List.map_nil, List.nil_append]
      cases pctItems rest <;> rfl
    | cons b bs ih =>
      intro hlt
      simp only [List.flatMap_cons, List.map_cons, List.append_assoc,
        List.cons_append]
      rw [pctItems_pctByte b (hlt b (List.mem_cons_self b bs)) _]
      rw [ih (fun x hx => hlt x (List.mem_cons_of_mem _ hx))]
      cases pctItems rest <;> rfl

theorem utf8SM_inr1 (v : Nat) (hv : v < 0x80) (c : Char)
    (hcs : charOfScalar v = some c) (rest : List (Char ⊕ Nat)) :
    utf8SM none (Sum.inr v :: rest) = (utf8SM none rest).map (c :: ·) := by
  simp only [utf8SM, if_pos hv, hcs, Option.some_bind]

theorem utf8SM_inr2 (v : Nat) (h8 : 0x80 ≤ v) (hv : v < 0x800) (c : Char)
    (hcs : charOfScalar v = some c) (rest : List (Char ⊕ Nat)) :
    utf8SM none (Sum.inr (0xC0 + v / 64) :: Sum.inr (0x80 + v % 64) :: rest) =
      (utf8SM none rest).map (c :: ·) := by
  have hn1 : ¬ (0xC0 + v / 64 < 0x80) := by omega
  have hr : 0xC2 ≤ 0xC0 + v / 64 ∧ 0xC0 + v / 64 ≤ 0xDF := by omega
  have hr2 : 0x80 ≤ 0x80 + v % 64 ∧ 0x80 + v % 64 ≤ 0xBF := by omega
  have hs : (0xC0 + v / 64 - 0xC0) * 64 + (0x80 + v % 64 - 0x80) = v := by omega
  simp only [utf8SM, if_neg hn1, if_pos hr, if_pos hr2, if_pos rfl, if_true,
    hs, if_pos h8, hcs, Option.some_bind]

theorem utf8SM_inr3 (v : Nat) (h8 : 0x800 ≤ v) (hv : v < 0x10000) (c : Char)
    (hcs : charOfScalar v = some c) (rest : List (Char ⊕ Nat)) :
    utf8SM none (Sum.inr (0xE0 + v / 4096) :: Sum.inr (0x80 + v / 64 % 64) ::
        Sum.inr (0x80 + v % 64) :: rest) =
      (utf8SM none rest).map (c :: ·) := by
  have hn1 : ¬ (0xE0 + v / 4096 < 0x80) := by omega
  have hn2 : ¬ (0xC2 ≤ 0xE0 + v / 4096 ∧ 0xE0 + v / 4096 ≤ 0xDF) := by omega
  have hr : 0xE0 ≤ 0xE0 + v / 4096 ∧ 0xE0 + v / 4096 ≤ 0xEF := by omega
  have hc2 : 0x80 ≤ 0x80 + v / 64 % 64 ∧ 0x80 + v / 64 % 64 ≤ 0xBF := by omega
  have hc3 : 0x80 ≤ 0x80 + v % 64 ∧ 0x80 + v % 64 ≤ 0xBF := by omega
  have hs : ((0xE0 + v / 4096 - 0xE0) * 64 + (0x80 + v / 64 % 64 - 0x80)) * 64 +
      (0x80 + v % 64 - 0x80) = v := by omega
  simp only [utf8SM, if_neg hn1, if_neg hn2, if_pos hr, if_pos hc2, if_pos hc3,
    if_neg (by decide : ¬ ((2 : Nat) = 1)), show (2 : Nat) - 1 = 1 from rfl,
    if_pos rfl, if_true, hs, if_pos h8, hcs, Option.some_bind]

theorem utf8SM_inr4 (v : Nat) (h8 : 0x10000 ≤ v) (hv : v < 0x110000) (c : Char)
    (hcs : charOfScalar v = some c) (rest : List (Char ⊕ Nat)) :
    utf8SM none (Sum.inr (0xF0 + v / 262144) :: Sum.inr (0x80 + v / 4096 % 64) ::
        Sum.inr (0x80 + v / 64 % 64) :: Sum.inr (0x80 + v % 64) :: rest) =
      (utf8SM none rest).map (c :: ·) := by
  have hn1 : ¬ (0xF0 + v / 262144 < 0x80) := by omega
  have hn2 : ¬ (0xC2 ≤ 0xF0 + v / 262144 ∧ 0xF0 + v / 262144 ≤ 0xDF) := by omega
  have hn3 : ¬ (0xE0 ≤ 0xF0 + v / 262144 ∧ 0xF0 + v / 262144 ≤ 0xEF) := by omega
  have hr : 0xF0 ≤ 0xF0 + v / 262144 ∧ 0xF0 + v / 262144 ≤ 0xF4 := by omega
  have hc2 : 0x80 ≤ 0x80 + v / 4096 % 64 ∧ 0x80 + v / 4096 % 64 ≤ 0xBF := by omega
  have hc3 : 0x80 ≤ 0x80 + v / 64 % 64 ∧ 0x80 + v / 64 % 64 ≤ 0xBF := by omega
  have hc4 : 0x80 ≤ 0x80 + v % 64 ∧ 0x80 + v % 64 ≤ 0xBF := by omega
  have hs : (((0xF0 + v / 262144 - 0xF0) * 64 + (0x80 + v / 4096 % 64 - 0x80)) * 64 +
      (0x80 + v / 64 % 64 - 0x80)) * 64 + (0x80 + v % 64 - 0x80) = v := by omega
  simp only [utf8SM, if_neg hn1, if_neg hn2, if_neg hn3, if_pos hr, if_pos hc2,
    if_pos hc3, if_pos hc4,
    if_neg (by decide : ¬ ((3 : Nat) = 1)), show (3 : Nat) - 1 = 2 from rfl,
    if_neg (by decide : ¬ ((2 : Nat) = 1)), show (2 : Nat) - 1 = 1 from rfl,
    if_pos rfl, if_true, hs, if_pos h8, hcs, Option.some_bind]

theorem utf8SM_encItemsChar (c : Char) (rest : List (Char ⊕ Nat)) :
    utf8SM none (encItemsChar c ++ rest) = (utf8SM none rest).map (c :: ·) := by
  by_cases hu : isUnreservedUri c
  · rw [show encItemsChar c = [Sum.inl c] from by simp [encItemsChar, hu]]
    rfl
  · rw [show encItemsChar c = (utf8Bytes c.toNat).map Sum.inr from by
      simp [encItemsChar, hu]]
    have hcs : charOfScalar c.toNat = some c := charOfScalar_toNat c
    have hval : c.toNat.isValidChar := c.valid
    by_cases h1 : c.toNat < 0x80
    · rw [show utf8Bytes c.toNat = [c.toNat] from by rw [utf8Bytes, if_pos h1]]
      simp only [List.map_cons, List.map_nil, List.singleton_append]
      exact utf8SM_inr1 _ h1 _ hcs rest
    by_cases h2 : c.toNat < 0x800
    · rw [show utf8Bytes c.toNat =
        [0xC0 + c.toNat / 64, 0x80 + c.toNat % 64] from by
        rw [utf8Bytes, if_neg h1, if_pos h2]]
      simp only [List.map_cons, List.map_nil, List.cons_append, List.nil_append]
      exact utf8SM_inr2 _ (by omega) h2 _ hcs rest
    by_cases h3 : c.toNat < 0x10000
    · rw [show utf8Bytes c.toNat =
        [0xE0 + c.toNat / 4096, 0x80 + c.toNat / 64 % 64, 0x80 + c.toNat % 64] from by
        rw [utf8Bytes, if_neg h1, if_neg h2, if_pos h3]]
      simp only [List.map_cons, List.map_nil, List.cons_append, List.nil_append]
      exact utf8SM_inr3 _ (by omega) h3 _ hcs rest
    · have h4 : c.toNat < 0x110000 := by
        rcases hval with h | ⟨ha, hb⟩
        · omega
        · omega
      rw [show utf8Bytes c.toNat =
        [0xF0 + c.toNat / 262144, 0x80 + c.toNat / 4096 % 64,
          0x80 + c.toNat / 64 % 64, 0x80 + c.toNat % 64] from by
        rw [utf8Bytes, if_neg h1, if_neg h2, if_neg h3]]
      simp only [List.map_cons, List.map_nil, List.cons_append, List.nil_append]
      exact utf8SM_inr4 _ (by omega) h4 _ hcs rest

/-- The decoder inverts the encoder: `decodeURIComponent(encodeURIComponent(s))`
never throws and returns `s`. -/
theorem pctItems_encode (s : List Char) :
    pctItems (encodeUriComponentL s) = some (s.flatMap encItemsChar) := by
  induction s with
  | nil => rfl
  | cons c t ih =>
    rw [show encodeUriComponentL (c :: t) = encChar c ++ encodeUriComponentL t from by
      simp [encodeUriComponentL], pctItems_encChar, ih]
    simp

theorem utf8SM_encode (s : List Char) :
    utf8SM none (s.flatMap encItemsChar) = some s := by
  induction s with
  | nil => rfl
  | cons c t ih =>
    rw [List.flatMap_cons, utf8SM_encItemsChar, ih]
    rfl

theorem decode_encode (s : List Char) :
    decodeUriComponentL (encodeUriComponentL s) = some s := by
  rw [decodeUriComponentL, pctItems_encode]
  simpa using utf8SM_encode s

/-- `encodeURIComponent` is injective (an inverse exists). -/
theorem encodeUriComponentL_inj {a b : List Char}
    (h : encodeUriComponentL a = encodeUriComponentL b) : a = b := by
  have ha := decode_encode a
  have hb := decode_encode b
  rw [h, hb] at ha
  exact (Option.some_inj.mp ha).symm

/-- Encoding never shortens a string. -/
theorem encodeUriComponentL_length (s : List Char) :
    s.length ≤ (encodeUriComponentL s).length := by
  induction s with
  | nil => simp [encodeUriComponentL]
  | cons c t ih =>
    rw [show encodeUriComponentL (c :: t) = encChar c ++ encodeUriComponentL t from by
      simp [encodeUriComponentL]]
    have : 1 ≤ (encChar c).length := by
      rw [encChar]
      split
      · simp
      · rw [utf8Bytes]
        split
        · simp [pctByte]
        split
        · simp [pctByte]
        split
        · simp [pctByte]
        · simp [pctByte]
    simp only [List.length_append, List.length_cons]
    omega

/-- Characters emitted by `encodeURIComponent` are unreserved, `%`, or an
upper-case hex digit; in particular never `&`, `/`, `?`, `#`, `"`, `<`, `>`. -/
theorem encodeUriComponentL_chars {s : List Char} {x : Char}
    (hx : x ∈ encodeUriComponentL s) : isUnreservedUri x = true ∨ x = '%' ∨
      (48 ≤ x.toNat ∧ x.toNat ≤ 57) ∨ (65 ≤ x.toNat ∧ x.toNat ≤ 70) := by
  rw [encodeUriComponentL, List.mem_flatMap] at hx
  obtain ⟨c, _, hc⟩ := hx
  rw [encChar] at hc
  split at hc
  · rw [List.mem_singleton] at hc
    subst hc
    left
    assumption
  · rw [List.mem_flatMap] at hc
    obtain ⟨b, hbm, hb⟩ := hc
    have hv : c.toNat < 0x110000 := by
      have h := c.valid
      rcases h with h | ⟨h1, h2⟩
      · exact Nat.lt_trans h (by norm_num)
      · exact h2
    have hb256 : b < 256 := utf8Bytes_lt hv b hbm
    rw [pctByte] at hb
    simp only [List.mem_cons, List.mem_singleton, List.not_mem_nil,
      or_false] at hb
    rcases hb with h | h | h
    · right; left; exact h
    · right; right
      rw [h]
      exact hexUpper_range _ (by omega)
    · right; right
      rw [h]
      exact hexUpper_range _ (by omega)

/-! ## Literal global string replacement (JS `s.replace(/lit/g, rep)`) -/

/-- JS `String.replace` with a global literal pattern: scan left to right,
replace each occurrence, continue scanning after the replaced text.  The
fuel argument only drives structural recursion; it is `s.length` at the
wrapper and never runs out (the scan consumes at least one character per
step). -/
def replaceLitF (pat rep : List Char) : Nat → List Char → List Char
  | _, [] => []
  | 0, s => s
  | fuel + 1, c :: cs =>
    match pat with
    | [] => c :: cs
    | p :: ps =>
      if (p :: ps).isPrefixOf (c :: cs) then
        rep ++ replaceLitF pat rep fuel ((c :: cs).drop (p :: ps).length)
      else c :: replaceLitF pat rep fuel cs

def replaceLit (pat rep s : List Char) : List Char :=
  replaceLitF pat rep s.length s

/-- Whether `pat` occurs as a contiguous subsequence. -/
def containsSeq (pat : List Char) : List Char → Bool
  | [] => pat.isPrefixOf []
  | c :: cs => pat.isPrefixOf (c :: cs) || containsSeq pat cs

theorem replaceLitF_eq_self {pat : List Char} (rep : List Char) :
    ∀ (fuel : Nat) {s : List Char}, containsSeq pat s = false →
      replaceLitF pat rep fuel s = s := by
  intro fuel
  induction fuel with
  | zero =>
    intro s _
    match s with
    | [] => rfl
    | c :: cs => rfl
  | succ n ih =>
    intro s h
    match s with
    | [] => rfl
    | c :: cs =>
      rw [containsSeq, Bool.or_eq_false_iff] at h
      obtain ⟨h1, h2⟩ := h
      rw [replaceLitF.eq_def]
      dsimp only
      match pat with
      | [] => rfl
      | p :: ps =>
        dsimp only
        rw [if_neg (by simp [h1])]
        rw [ih h2]

theorem replaceLit_eq_self {pat : List Char} (rep : List Char) {s : List Char}
    (h : containsSeq pat s = false) : replaceLit pat rep s = s :=
  replaceLitF_eq_self rep s.length h

theorem containsSeq_eq_false_of_head {p : Char} {ps s : List Char}
    (h : ∀ c ∈ s, c ≠ p) : containsSeq (p :: ps) s = false := by
  induction s with
  | nil => rfl
  | cons c cs ih =>
    rw [containsSeq, Bool.or_eq_false_iff]
    refine ⟨?_, ih fun x hx => h x (List.mem_cons_of_mem _ hx)⟩
    cases hpre : List.isPrefixOf (p :: ps) (c :: cs)
    · rfl
    · exfalso
      rw [List.isPrefixOf_cons₂, Bool.and_eq_true] at hpre
      exact (h c (List.mem_cons_self c cs)) (eq_of_beq hpre.1).symm

/-! ## HTML entity decoding (`server.js` line 119, inside `toProxyUrl`) -/

/-- The five sequential entity replacements performed on a raw reference before
URL resolution:
`raw.replace(/&amp;/g,'&').replace(/&lt;/g,'<').replace(/&gt;/g,'>')
    .replace(/&quot;/g,'"').replace(/&#39;/g,"'")`. -/
def entityDecodeL (s : List Char) : List Char :=
  replaceLit "&#39;".data "'".data
    (replaceLit "&quot;".data "\"".data
      (replaceLit "&gt;".data ">".data
        (replaceLit "&lt;".data "<".data
          (replaceLit "&amp;".data "&".data s))))

def entityDecode (s : String) : String := ⟨entityDecodeL s.data⟩

theorem entityDecodeL_eq_self {s : List Char} (h : ∀ c ∈ s, c ≠ '&') :
    entityDecodeL s = s := by
  rw [entityDecodeL]
  rw [replaceLit_eq_self _ (containsSeq_eq_false_of_head h),
    replaceLit_eq_self _ (containsSeq_eq_false_of_head h),
    replaceLit_eq_self _ (containsSeq_eq_false_of_head h),
    replaceLit_eq_self _ (containsSeq_eq_false_of_head h),
    replaceLit_eq_self _ (containsSeq_eq_false_of_head h)]

/-! ## WHATWG `URL` model

The server calls `new URL(raw)`, `new URL(raw, base)`, `.href`, and
`.hostname`.  The model below parses/resolves `http(s)` URLs and treats other
schemes as opaque.  It is exact on a guarded character subset: whenever the
real parser would percent-encode, case-fold a host, or otherwise normalise
something the model does not implement, the model returns `none` (a thrown
`TypeError` also maps to `none`; every concrete input used in theorems below
is inside the subset, where `none` coincides exactly with a throw). -/

def schemeTailOk (c : Char) : Bool :=
  c.isAlpha || c.isDigit || c = '+' || c = '-' || c = '.'

/-- Split a leading `scheme:` (first char alphabetic), lower-casing the
scheme as the parser does. -/
def splitScheme (l : List Char) : Option (List Char × List Char) :=
  let sch := l.takeWhile schemeTailOk
  let rest := l.dropWhile schemeTailOk
  match sch, rest with
  | c :: _, ':' :: r => if c.isAlpha then some (sch.map Char.toLower, r) else none
  | _, _ => none

/-- Characters accepted in (already canonical, lower-case) registrable
domains; anything else makes the model bail out. -/
def hostCharOk (c : Char) : Bool :=
  (97 ≤ c.toNat && c.toNat ≤ 122) || c.isDigit || c = '.' || c = '-'

/-- Characters the reference parser serialises verbatim in a path (printable
ASCII minus the path percent-encode set and `\`). -/
def pathCharOk (c : Char) : Bool :=
  let n := c.toNat
  33 ≤ n && n ≤ 126 && n ≠ 34 && n ≠ 60 && n ≠ 62 && n ≠ 96 &&
    n ≠ 63 && n ≠ 35 && n ≠ 123 && n ≠ 125 && n ≠ 92

/-- Characters serialised verbatim in a special-scheme query. -/
def queryCharOk (c : Char) : Bool :=
  let n := c.toNat
  33 ≤ n && n ≤ 126 && n ≠ 34 && n ≠ 35 && n ≠ 60 && n ≠ 62 && n ≠ 39

/-- Characters serialised verbatim in a fragment. -/
def fragCharOk (c : Char) : Bool :=
  let n := c.toNat
  33 ≤ n && n ≤ 126 && n ≠ 34 && n ≠ 60 && n ≠ 62 && n ≠ 96

/-- Characters serialised verbatim in an opaque (non-special) path. -/
def opaqueCharOk (c : Char) : Bool :=
  let n := c.toNat
  33 ≤ n && n ≤ 126 && n ≠ 63 && n ≠ 35 && n ≠ 92

/-- Split on every occurrence of a character (always at least one part). -/
def splitCh (c : Char) : List Char → List (List Char)
  | [] => [[]]
  | x :: xs =>
    if x = c then [] :: splitCh c xs
    else
      match splitCh c xs with
      | h :: t => (x :: h) :: t
      | [] => [[x]]

/-- Split at the first occurrence of a character, if any. -/
def splitAtCh (c : Char) : List Char → List Char × Option (List Char)
  | [] => ([], none)
  | x :: xs =>
    if x = c then ([], some xs)
    else
      let (a, b) := splitAtCh c xs
      (x :: a, b)

/-- Dot-segment removal on a segment list (URL path state: `.` is dropped,
`..` pops a segment; a trailing dot segment leaves a trailing slash). -/
def normSegs (acc : List (List Char)) : List (List Char) → List (List Char)
  | [] => acc.reverse
  | seg :: rest =>
    if seg = ['.'] then
      if rest = [] then ([] :: acc).reverse else normSegs acc rest
    else if seg = ['.', '.'] then
      if rest = [] then ([] :: acc.drop 1).reverse
      else normSegs (acc.drop 1) rest
    else normSegs (seg :: acc) rest

/-- Join path segments with `/`. -/
def joinSlash : List (List Char) → List Char
  | [] => []
  | [x] => x
  | x :: xs => x ++ '/' :: joinSlash xs

/-- Dot-segment removal on a path beginning with `/`. -/
def removeDotSegments (p : List Char) : List Char :=
  match p with
  | '/' :: rest => '/' :: joinSlash (normSegs [] (splitCh '/' rest))
  | _ => p

/-- Parsed URL: an `http(s)` URL (scheme, host, path, query, fragment) or an
opaque-path URL of another scheme. -/
inductive UrlParsed where
  | special (sch : List Char) (host : List Char) (path : List Char)
      (query : Option (List Char)) (frag : Option (List Char))
  | opq (sch : List Char) (rest : List Char)
deriving DecidableEq

/-- The `.href` serialisation. -/
def urlHref : UrlParsed → List Char
  | .special sch host path q f =>
    sch ++ (':' :: '/' :: '/' :: []) ++ host ++ path ++
      (match q with | some qq => '?' :: qq | none => []) ++
      (match f with | some ff => '#' :: ff | none => [])
  | .opq sch rest => sch ++ ':' :: rest

/-- The `.hostname` accessor (empty for opaque-path URLs). -/
def urlHostname : UrlParsed → List Char
  | .special _ host _ _ _ => host
  | .opq _ _ => []

def notAuthDelim (c : Char) : Bool := c ≠ '/' && c ≠ '?' && c ≠ '#'

/-- Parse `path?query#fragment` (everything after the authority) for a
special-scheme URL. -/
def parsePQF (sch host pqf : List Char) : Option UrlParsed :=
  let (pf, frag) := splitAtCh '#' pqf
  let (p, q) := splitAtCh '?' pf
  let path0 := if p = [] then ['/'] else p
  if path0.all pathCharOk &&
      (match q with | some qq => qq.all queryCharOk | none => true) &&
      (match frag with | some ff => ff.all fragCharOk | none => true) &&
      path0.head? = some '/' then
    some (.special sch host (removeDotSegments path0) q frag)
  else none

/-- Model of `new URL(l)` on an absolute URL string. -/
def parseAbs (l : List Char) : Option UrlParsed :=
  match splitScheme l with
  | none => none
  | some (sch, rest) =>
    if sch = "http".data || sch = "https".data then
      match rest with
      | '/' :: '/' :: r =>
        let auth := r.takeWhile notAuthDelim
        let tail1 := r.dropWhile notAuthDelim
        if auth ≠ [] && auth.all hostCharOk &&
            (match auth.getLast? with | some c => c.isAlpha | none => false) then
          parsePQF sch auth tail1
        else none
      | _ => none
    else if rest.all opaqueCharOk then some (.opq sch rest) else none

/-- Model of `new URL(raw, base).href`: absolute `raw` stands alone,
otherwise `raw` is resolved against `base` (path-absolute, query-only,
fragment-only and relative-path references). -/
def resolveHref (raw base : List Char) : Option (List Char) :=
  match splitScheme raw with
  | some _ => (parseAbs raw).map urlHref
  | none =>
    match parseAbs base with
    | some (.special sch host bpath bq _) =>
      match raw with
      | '/' :: '/' :: _ => none
      | _ =>
        let (pf, frag) := splitAtCh '#' raw
        let (p, q) := splitAtCh '?' pf
        let fragOk := match frag with | some ff => ff.all fragCharOk | none => true
        let qOk := match q with | some qq => qq.all queryCharOk | none => true
        if p = [] then
          match q with
          | some qq =>
            if qOk && fragOk then
              some (urlHref (.special sch host bpath (some qq) frag))
            else none
          | none =>
            if fragOk then some (urlHref (.special sch host bpath bq frag))
            else none
        else
          if p.all pathCharOk && qOk && fragOk then
            match p with
            | '/' :: _ =>
              some (urlHref (.special sch host (removeDotSegments p) q frag))
            | _ =>
              let dir := (bpath.reverse.dropWhile (· ≠ '/')).reverse
              some (urlHref (.special sch host (removeDotSegments (dir ++ p)) q frag))
          else none
    | _ => none

/-! ## The canonical rewrite primitive `toProxyUrl` (`server.js` 116-125) -/

/-- `toProxyUrl` from `rewriteUrls`: decode HTML entities, resolve against
`baseUrl`, and return `/proxy/` plus the percent-encoded absolute URL; if the
`URL` constructor throws, return the (already entity-decoded) `raw`. -/
def toProxyUrlL (baseUrl raw : List Char) : List Char :=
  let decoded := entityDecodeL raw
  match resolveHref decoded baseUrl with
  | some resolved => "/proxy/".data ++ encodeUriComponentL resolved
  | none => decoded

def toProxyUrl (baseUrl raw : String) : String :=
  ⟨toProxyUrlL baseUrl.data raw.data⟩

/-! ## Character facts about encoder output -/

theorem char_ne_of_toNat {a b : Char} (h : a.toNat ≠ b.toNat) : a ≠ b :=
  fun he => h (he ▸ rfl)

theorem enc_chars_bound {R : List Char} {x : Char}
    (hx : x ∈ encodeUriComponentL R) :
    33 ≤ x.toNat ∧ x.toNat ≤ 126 ∧ x.toNat ≠ 34 ∧ x.toNat ≠ 35 ∧
      x.toNat ≠ 38 ∧ x.toNat ≠ 47 ∧ x.toNat ≠ 60 ∧ x.toNat ≠ 62 ∧
      x.toNat ≠ 63 ∧ x.toNat ≠ 92 ∧ x.toNat ≠ 96 ∧ x.toNat ≠ 123 ∧
      x.toNat ≠ 125 := by
  rcases encodeUriComponentL_chars hx with h | h | h | h
  · simp only [isUnreservedUri, Bool.or_eq_true, Bool.and_eq_true,
      decide_eq_true_eq, beq_iff_eq] at h
    omega
  · subst h
    refine ⟨by decide, by decide, ?_⟩
    decide
  · omega
  · omega

theorem enc_chars_pathOk {R : List Char} {x : Char}
    (hx : x ∈ encodeUriComponentL R) : pathCharOk x = true := by
  have h := enc_chars_bound hx
  simp only [pathCharOk, Bool.and_eq_true, decide_eq_true_eq]
  omega

theorem enc_all_pathOk (R : List Char) :
    (encodeUriComponentL R).all pathCharOk = true := by
  rw [List.all_eq_true]
  exact fun x hx => enc_chars_pathOk hx

theorem enc_ne_amp {R : List Char} {x : Char}
    (hx : x ∈ encodeUriComponentL R) : x ≠ '&' := by
  have h := enc_chars_bound hx
  exact char_ne_of_toNat (by simpa using h.2.2.2.2.1)

theorem enc_ne_slash {R : List Char} {x : Char}
    (hx : x ∈ encodeUriComponentL R) : x ≠ '/' := by
  have h := enc_chars_bound hx
  exact char_ne_of_toNat (by simpa using h.2.2.2.2.2.1)

theorem enc_ne_hash {R : List Char} {x : Char}
    (hx : x ∈ encodeUriComponentL R) : x ≠ '#' := by
  have h := enc_chars_bound hx
  exact char_ne_of_toNat (by simpa using h.2.2.2.1)

theorem enc_ne_question {R : List Char} {x : Char}
    (hx : x ∈ encodeUriComponentL R) : x ≠ '?' := by
  have h := enc_chars_bound hx
  exact char_ne_of_toNat (by simpa using h.2.2.2.2.2.2.2.2.1)

/-! ## Splitting and dot-segment lemmas -/

theorem splitAtCh_of_not_mem {c : Char} {l : List Char}
    (h : ∀ x ∈ l, x ≠ c) : splitAtCh c l = (l, none) := by
  induction l with
  | nil => rfl
  | cons x xs ih =>
    rw [splitAtCh, if_neg (h x (List.mem_cons_self x xs)),
      ih fun y hy => h y (List.mem_cons_of_mem _ hy)]

theorem splitCh_of_not_mem {c : Char} {l : List Char}
    (h : ∀ x ∈ l, x ≠ c) : splitCh c l = [l] := by
  induction l with
  | nil => rfl
  | cons x xs ih =>
    rw [splitCh, if_neg (h x (List.mem_cons_self x xs)),
      ih fun y hy => h y (List.mem_cons_of_mem _ hy)]

theorem splitCh_append_cons {c : Char} {l1 l2 : List Char}
    (h1 : ∀ x ∈ l1, x ≠ c) (h2 : ∀ x ∈ l2, x ≠ c) :
    splitCh c (l1 ++ c :: l2) = [l1, l2] := by
  induction l1 with
  | nil =>
    rw [List.nil_append, splitCh, if_pos rfl, splitCh_of_not_mem h2]
  | cons x xs ih =>
    rw [List.cons_append, splitCh, if_neg (h1 x (List.mem_cons_self x xs)),
      ih fun y hy => h1 y (List.mem_cons_of_mem _ hy)]

theorem splitScheme_slashHead (xs : List Char) : splitScheme ('/' :: xs) = none := rfl

theorem pathCharOk_ne {x : Char} (h : pathCharOk x = true) :
    x ≠ '#' ∧ x ≠ '?' := by
  simp only [pathCharOk, Bool.and_eq_true, decide_eq_true_eq] at h
  exact ⟨char_ne_of_toNat (show x.toNat ≠ 35 by omega),
    char_ne_of_toNat (show x.toNat ≠ 63 by omega)⟩

theorem normSegs_pair {s1 s2 : List Char}
    (h1a : s1 ≠ ['.']) (h1b : s1 ≠ ['.', '.'])
    (h2a : s2 ≠ ['.']) (h2b : s2 ≠ ['.', '.']) :
    normSegs [] [s1, s2] = [s1, s2] := by
  rw [normSegs, if_neg h1a, if_neg h1b, normSegs, if_neg h2a, if_neg h2b,
    normSegs]
  rfl

/-- `removeDotSegments` is the identity on `/proxy/<segment>` paths whose
segment has no slash and is not a dot segment. -/
theorem removeDotSegments_proxy {e : List Char}
    (hslash : ∀ x ∈ e, x ≠ '/') (h1 : e ≠ ['.']) (h2 : e ≠ ['.', '.']) :
    removeDotSegments ("/proxy/".data ++ e) = "/proxy/".data ++ e := by
  have hsp : splitCh '/' ("proxy".data ++ '/' :: e) = ["proxy".data, e] :=
    splitCh_append_cons (by decide) hslash
  rw [show "/proxy/".data ++ e = '/' :: ("proxy".data ++ '/' :: e) from rfl]
  rw [removeDotSegments, hsp, normSegs_pair (by decide) (by decide) h1 h2]
  rfl

/-- Resolving the path-absolute reference `/proxy/<segment>` against a parsed
`http(s)` base yields `scheme://host/proxy/<segment>`. -/
theorem resolveHref_proxyPath {base : List Char} {sch host bpath : List Char}
    {bq bf : Option (List Char)} {e : List Char}
    (hb : parseAbs base = some (.special sch host bpath bq bf))
    (hall : e.all pathCharOk = true)
    (hslash : ∀ x ∈ e, x ≠ '/') (h1 : e ≠ ['.']) (h2 : e ≠ ['.', '.']) :
    resolveHref ("/proxy/".data ++ e) base =
      some (sch ++ "://".data ++ host ++ ("/proxy/".data ++ e)) := by
  have hpok : ∀ x ∈ e, pathCharOk x = true := List.all_eq_true.mp hall
  have hpro : ∀ y ∈ "/proxy/".data, y ≠ '#' ∧ y ≠ '?' := by decide
  have hhash : ∀ x ∈ "/proxy/".data ++ e, x ≠ '#' := by
    intro x hx
    rcases List.mem_append.mp hx with hx | hx
    · exact (hpro x hx).1
    · exact (pathCharOk_ne (hpok x hx)).1
  have hq : ∀ x ∈ "/proxy/".data ++ e, x ≠ '?' := by
    intro x hx
    rcases List.mem_append.mp hx with hx | hx
    · exact (hpro x hx).2
    · exact (pathCharOk_ne (hpok x hx)).2
  have hS : splitAtCh '#' ("/proxy/".data ++ e) = ("/proxy/".data ++ e, none) :=
    splitAtCh_of_not_mem hhash
  have hQ : splitAtCh '?' ("/proxy/".data ++ e) = ("/proxy/".data ++ e, none) :=
    splitAtCh_of_not_mem hq
  rw [resolveHref]
  rw [show splitScheme ("/proxy/".data ++ e) = none from rfl]
  dsimp only
  rw [hb]
  dsimp only
  split
  · rename_i heq
    exfalso
    rw [show "/proxy/".data ++ e = '/' :: 'p' :: ("roxy/".data ++ e) from rfl] at heq
    simp at heq
  · rw [hS]
    dsimp only
    rw [hQ]
    dsimp only
    rw [if_neg (show ¬ ("/proxy/".data ++ e = []) by simp)]
    rw [if_pos (show (("/proxy/".data ++ e).all pathCharOk && true && true) = true by
      simp only [List.all_append, hall, Bool.and_true]
      decide)]
    rw [show "/proxy/".data ++ e = '/' :: ("proxy/".data ++ e) from rfl]
    dsimp only
    rw [show '/' :: ("proxy/".data ++ e) = "/proxy/".data ++ e from rfl]
    rw [removeDotSegments_proxy hslash h1 h2]
    simp [urlHref]



/-! ## Claims C1, C2, C8: properties of the rewrite primitive -/

/-- C1 (counterexample): the rewrite primitive is not idempotent.
`toProxyUrl` maps `http://example.com/` to the proxy-namespace reference
`/proxy/http%3A%2F%2Fexample.com%2F`, but applying it again to that output
does not return it unchanged: the `/proxy/...` string is resolved against the
base and wrapped a second time. -/
theorem c1_toProxyUrl_not_idempotent_cex :
    toProxyUrl "http://site.test/" "http://example.com/" =
      "/proxy/http%3A%2F%2Fexample.com%2F" ∧
    toProxyUrl "http://site.test/" "/proxy/http%3A%2F%2Fexample.com%2F" =
      "/proxy/http%3A%2F%2Fsite.test%2Fproxy%2Fhttp%253A%252F%252Fexample.com%252F" ∧
    toProxyUrl "http://site.test/" (toProxyUrl "http://site.test/" "http://example.com/") ≠
      toProxyUrl "http://site.test/" "http://example.com/" := by
  refine ⟨by decide, by decide, by decide⟩

/-- C1 (amended): `toProxyUrl` does not recognise the proxy-namespace prefix.
Applied to a reference `/proxy/<enc R>` that is already in the proxy
namespace (with `R` not a dot segment and the base an in-model `http(s)`
URL), it wraps the reference again — returning
`/proxy/<enc (scheme://host/proxy/<enc R>)>` — and therefore never returns
the input unchanged: the primitive is not idempotent on its own output. -/
theorem c1_toProxyUrl_reapply_wraps (base sch host bpath : List Char)
    (bq bf : Option (List Char)) (R : List Char)
    (hb : parseAbs base = some (.special sch host bpath bq bf))
    (hR1 : R ≠ ['.']) (hR2 : R ≠ ['.', '.']) :
    toProxyUrlL base ("/proxy/".data ++ encodeUriComponentL R) =
      "/proxy/".data ++ encodeUriComponentL
        (sch ++ "://".data ++ host ++ ("/proxy/".data ++ encodeUriComponentL R)) ∧
    toProxyUrlL base ("/proxy/".data ++ encodeUriComponentL R) ≠
      "/proxy/".data ++ encodeUriComponentL R := by
  have hd1 : encodeUriComponentL R ≠ ['.'] := fun he =>
    hR1 (encodeUriComponentL_inj
      (he.trans (show encodeUriComponentL ['.'] = ['.'] by decide).symm))
  have hd2 : encodeUriComponentL R ≠ ['.', '.'] := fun he =>
    hR2 (encodeUriComponentL_inj
      (he.trans (show encodeUriComponentL ['.', '.'] = ['.', '.'] by decide).symm))
  have hres := resolveHref_proxyPath hb (enc_all_pathOk R)
    (fun x hx => enc_ne_slash hx) hd1 hd2
  have hent : entityDecodeL ("/proxy/".data ++ encodeUriComponentL R) =
      "/proxy/".data ++ encodeUriComponentL R := by
    apply entityDecodeL_eq_self
    intro c hc
    rcases List.mem_append.mp hc with h | h
    · have hy : ∀ y ∈ "/proxy/".data, y ≠ '&' := by decide
      exact hy c h
    · exact enc_ne_amp h
  have h1 : toProxyUrlL base ("/proxy/".data ++ encodeUriComponentL R) =
      "/proxy/".data ++ encodeUriComponentL
        (sch ++ "://".data ++ host ++ ("/proxy/".data ++ encodeUriComponentL R)) := by
    rw [toProxyUrlL]
    rw [hent, hres]
  refine ⟨h1, ?_⟩
  rw [h1]
  intro hcontra
  have h2 := List.append_cancel_left hcontra
  have h3 := encodeUriComponentL_inj h2
  have hlen := congrArg List.length h3
  have hF := encodeUriComponentL_length R
  simp only [List.length_append, show "://".data.length = 3 from rfl,
    show "/proxy/".data.length = 7 from rfl] at hlen
  omega

/-- C1 (witness for the amended theorem), at base `http://site.test/` and
`R = http://example.com/`. -/
theorem c1_toProxyUrl_reapply_wraps_witness :
    parseAbs "http://site.test/".data =
      some (.special "http".data "site.test".data "/".data none none) ∧
    toProxyUrlL "http://site.test/".data
        ("/proxy/".data ++ encodeUriComponentL "http://example.com/".data) ≠
      "/proxy/".data ++ encodeUriComponentL "http://example.com/".data :=
  ⟨by decide,
    (c1_toProxyUrl_reapply_wraps "http://site.test/".data "http".data
      "site.test".data "/".data none none "http://example.com/".data
      (by decide) (by decide) (by decide)).2⟩

/-- C2 (counterexample): for the absolute URL
`U = http://e.com/?x=1&amp;y=2` (a fixed point of the URL parser, not in the
proxy namespace), percent-decoding the path component of `toProxyUrl`'s
output does not yield `U`: the primitive first rewrites `&amp;` to `&`, so
the decoded path component is `http://e.com/?x=1&y=2`. -/
theorem c2_roundtrip_cex :
    resolveHref "http://e.com/?x=1&amp;y=2".data "http://site.test/".data =
      some "http://e.com/?x=1&amp;y=2".data ∧
    (toProxyUrl "http://site.test/" "http://e.com/?x=1&amp;y=2").take 7 = "/proxy/" ∧
    decodeUriComponentL
        ((toProxyUrlL "http://site.test/".data "http://e.com/?x=1&amp;y=2".data).drop 7) =
      some "http://e.com/?x=1&y=2".data ∧
    decodeUriComponentL
        ((toProxyUrlL "http://site.test/".data "http://e.com/?x=1&amp;y=2".data).drop 7) ≠
      some "http://e.com/?x=1&amp;y=2".data := by
  refine ⟨by decide, by decide, ?_, ?_⟩
  · rw [show toProxyUrlL "http://site.test/".data "http://e.com/?x=1&amp;y=2".data =
        "/proxy/".data ++ encodeUriComponentL "http://e.com/?x=1&y=2".data by decide]
    rw [show (7 : Nat) = "/proxy/".data.length from rfl, List.drop_left]
    exact decode_encode _
  · rw [show toProxyUrlL "http://site.test/".data "http://e.com/?x=1&amp;y=2".data =
        "/proxy/".data ++ encodeUriComponentL "http://e.com/?x=1&y=2".data by decide]
    rw [show (7 : Nat) = "/proxy/".data.length from rfl, List.drop_left]
    rw [decode_encode _]
    intro h
    have := Option.some_inj.mp h
    have := congrArg List.length this
    revert this
    decide

/-- C2 (amended): for every absolute URL `U` that the URL parser returns
unchanged (`resolveHref U base = some U`, i.e. `U` is fully resolved) and
that HTML-entity decoding leaves untouched, the rewrite emits
`/proxy/<encodeURIComponent U>` and percent-decoding its path component
yields exactly `U`. -/
theorem c2_proxyRef_decode_roundtrip (base U : List Char)
    (hent : entityDecodeL U = U)
    (hres : resolveHref U base = some U) :
    toProxyUrlL base U = "/proxy/".data ++ encodeUriComponentL U ∧
    decodeUriComponentL ((toProxyUrlL base U).drop 7) = some U := by
  have h1 : toProxyUrlL base U = "/proxy/".data ++ encodeUriComponentL U := by
    rw [toProxyUrlL]
    rw [hent, hres]
  refine ⟨h1, ?_⟩
  rw [h1, show (7 : Nat) = "/proxy/".data.length from rfl, List.drop_left]
  exact decode_encode U

/-- C2 (witness for the amended theorem), at
`U = http://example.com/a?x=1` and base `http://site.test/`. -/
theorem c2_proxyRef_decode_roundtrip_witness :
    entityDecodeL "http://example.com/a?x=1".data = "http://example.com/a?x=1".data ∧
    resolveHref "http://example.com/a?x=1".data "http://site.test/".data =
      some "http://example.com/a?x=1".data ∧
    decodeUriComponentL
        ((toProxyUrlL "http://site.test/".data "http://example.com/a?x=1".data).drop 7) =
      some "http://example.com/a?x=1".data :=
  ⟨by decide, by decide,
    (c2_proxyRef_decode_roundtrip "http://site.test/".data
      "http://example.com/a?x=1".data (by decide) (by decide)).2⟩

/-- C8 (counterexample): a reference whose URL resolution fails is not left
completely unmodified — the HTML-entity decode has already been applied when
the failure is caught.  For `raw = http://x&lt;y` (whose entity-decoded form
`http://x<y` makes the URL constructor throw on the forbidden host character
`<`), `toProxyUrl` returns the decoded string, not the original. -/
theorem c8_rewrite_failure_cex :
    resolveHref (entityDecodeL "http://x&lt;y".data) "http://site.test/".data = none ∧
    toProxyUrl "http://site.test/" "http://x&lt;y" = "http://x<y" ∧
    toProxyUrl "http://site.test/" "http://x&lt;y" ≠ "http://x&lt;y" := by
  refine ⟨by decide, by decide, by decide⟩

/-- C8 (amended): when URL resolution of a reference fails during rewriting,
`toProxyUrl` recovers locally and returns the reference in entity-decoded
form; a failing reference containing no `&` (hence no entity sequence) is
returned verbatim.  No error propagates in either case. -/
theorem c8_rewrite_failure_recovery (base raw : List Char)
    (hfail : resolveHref (entityDecodeL raw) base = none) :
    toProxyUrlL base raw = entityDecodeL raw ∧
    ((∀ c ∈ raw, c ≠ '&') → toProxyUrlL base raw = raw) := by
  have h1 : toProxyUrlL base raw = entityDecodeL raw := by
    rw [toProxyUrlL]
    rw [hfail]
  exact ⟨h1, fun h => by rw [h1, entityDecodeL_eq_self h]⟩

/-- C8 (witness for the amended theorem), at `raw = http://` (empty host:
the URL constructor throws; no entities present, so the reference is
returned verbatim). -/
theorem c8_rewrite_failure_recovery_witness :
    resolveHref (entityDecodeL "http://".data) "http://site.test/".data = none ∧
    toProxyUrlL "http://site.test/".data "http://".data = "http://".data :=
  ⟨by decide,
    (c8_rewrite_failure_recovery "http://site.test/".data "http://".data
      (by decide)).2 (by decide)⟩

/-! ## A small backtracking regular-expression engine

Models the JavaScript `RegExp` semantics used by `String.replace(re, fn)`
with the `g` flag for the patterns appearing in `server.js`: literals,
character classes, alternation (left preference), greedy and lazy
repetition, and capturing groups; the `i` flag is a parameter.  Matching is
leftmost, and scanning resumes after each match (empty matches advance one
character), as in `RegExp.prototype[Symbol.replace]`. -/

inductive RegEx where
  | eps
  | lit (s : List Char)
  | cls (neg : Bool) (cs : List Char) (rs : List (Char × Char))
  | cat (a b : RegEx)
  | alt (a b : RegEx)
  | star (greedy : Bool) (a : RegEx)
  | grp (i : Nat) (a : RegEx)

/-- Captures, most recent first. -/
abbrev Caps := List (Nat × List Char)

def sizeRE : RegEx → Nat
  | .eps => 1
  | .lit s => s.length + 1
  | .cls _ _ _ => 1
  | .cat a b => sizeRE a + sizeRE b + 1
  | .alt a b => sizeRE a + sizeRE b + 1
  | .star _ a => sizeRE a + 1
  | .grp _ a => sizeRE a + 1

def charEqCi (ci : Bool) (a b : Char) : Bool :=
  if ci then a.toLower == b.toLower else a == b

/-- Consume a literal from the head of the input. -/
def stripLit (ci : Bool) : List Char → List Char → Option (List Char)
  | [], s => some s
  | _ :: _, [] => none
  | p :: ps, c :: cs => if charEqCi ci p c then stripLit ci ps cs else none

/-- Character-class membership (`[...]` / `[^...]`). -/
def clsMatch (ci : Bool) (neg : Bool) (cs : List Char) (rs : List (Char × Char))
    (c : Char) : Bool :=
  let inSet := cs.any (fun d => charEqCi ci d c) ||
    rs.any (fun r => r.1 ≤ c ∧ c ≤ r.2)
  if neg then !inSet else inSet

/-- Backtracking matcher in continuation-passing style.  The fuel bounds the
recursion depth only; `reTry` supplies enough for every pattern/input pair
occurring here. -/
def reMatch (ci : Bool) : Nat → RegEx → List Char → Caps →
    (List Char → Caps → Option (List Char × Caps)) → Option (List Char × Caps)
  | 0, _, _, _, _ => none
  | fuel + 1, re, s, caps, k =>
    match re with
    | .eps => k s caps
    | .lit l =>
      match stripLit ci l s with
      | some s2 => k s2 caps
      | none => none
    | .cls neg cs rs =>
      match s with
      | [] => none
      | c :: s2 => if clsMatch ci neg cs rs c then k s2 caps else none
    | .cat a b =>
      reMatch ci fuel a s caps (fun s2 c2 => reMatch ci fuel b s2 c2 k)
    | .alt a b =>
      match reMatch ci fuel a s caps k with
      | some r => some r
      | none => reMatch ci fuel b s caps k
    | .star greedy a =>
      if greedy then
        match reMatch ci fuel a s caps (fun s2 c2 =>
          if s2.length < s.length then reMatch ci fuel (.star true a) s2 c2 k
          else none) with
        | some r => some r
        | none => k s caps
      else
        match k s caps with
        | some r => some r
        | none =>
          reMatch ci fuel a s caps (fun s2 c2 =>
            if s2.length < s.length then reMatch ci fuel (.star false a) s2 c2 k
            else none)
    | .grp i a =>
      reMatch ci fuel a s caps (fun s2 c2 =>
        k s2 ((i, s.take (s.length - s2.length)) :: c2))

/-- Try to match `re` at the head of `s`, returning the unconsumed suffix and
the captures. -/
def reTry (ci : Bool) (re : RegEx) (s : List Char) : Option (List Char × Caps) :=
  reMatch ci ((sizeRE re + 2) * (s.length + 2) * 2) re s [] (fun r c => some (r, c))

/-- One record per replaced match: matched text, captures, emitted
replacement. -/
abbrev MatchRec := List Char × Caps × List Char

/-- One scanning step of `String.replace` with a global regex: try the
pattern at the current position, emit the replacement on a match and continue
after it (empty matches advance a character); `recur` is the scan of the
remaining input. -/
def reScanBody {σ : Type} (ci : Bool) (re : RegEx)
    (f : σ → List Char → Caps → σ × List Char)
    (recur : σ → List Char → σ × List Char × List MatchRec)
    (st : σ) (s : List Char) : σ × List Char × List MatchRec :=
  match reTry ci re s with
  | none =>
    match s with
    | [] => (st, [], [])
    | c :: s2 =>
      let r := recur st s2
      (r.1, c :: r.2.1, r.2.2)
  | some (rem, caps) =>
    let m := s.take (s.length - rem.length)
    let fr := f st m caps
    match s.length - rem.length, s with
    | 0, [] => (fr.1, fr.2, [(m, caps, fr.2)])
    | 0, c :: s2 =>
      let r := recur fr.1 s2
      (r.1, fr.2 ++ c :: r.2.1, (m, caps, fr.2) :: r.2.2)
    | n + 1, _ =>
      let r := recur fr.1 (s.drop (n + 1))
      (r.1, fr.2 ++ r.2.1, (m, caps, fr.2) :: r.2.2)

/-- `String.replace(re, fn)` with the `g` flag: scan left to right.  The fuel
only drives structural recursion; it is `s.length + 1` at the wrapper and the
scan consumes at least one character per step. -/
def reScanF {σ : Type} (ci : Bool) (re : RegEx)
    (f : σ → List Char → Caps → σ × List Char) :
    Nat → σ → List Char → σ × List Char × List MatchRec
  | 0, st, s => (st, s, [])
  | fuel + 1, st, s => reScanBody ci re f (reScanF ci re f fuel) st s

/-- `String.replace(re, fn)` with the `g` flag (state-threading version). -/
def replaceAllSt {σ : Type} (ci : Bool) (re : RegEx)
    (f : σ → List Char → Caps → σ × List Char) (st : σ) (s : List Char) :
    σ × List Char × List MatchRec :=
  reScanF ci re f (s.length + 1) st s

theorem reScanBody_id {σ : Type} (ci : Bool) (re : RegEx)
    (f : σ → List Char → Caps → σ × List Char)
    (recur : σ → List Char → σ × List Char × List MatchRec)
    (hrec : ∀ (st : σ) (s : List Char),
      (∀ r ∈ (recur st s).2.2, r.2.2 = r.1) → (recur st s).2.1 = s)
    (st : σ) (s : List Char)
    (hmatch : ∀ r ∈ (reScanBody ci re f recur st s).2.2, r.2.2 = r.1) :
    (reScanBody ci re f recur st s).2.1 = s := by
  rw [reScanBody.eq_def] at hmatch ⊢
  match hT : reTry ci re s with
  | none =>
    rw [hT] at hmatch
    try dsimp only at hmatch ⊢
    revert hmatch
    match s with
    | [] => intro _; rfl
    | c :: s2 =>
      intro hmatch
      try dsimp only at hmatch ⊢
      rw [hrec _ _ hmatch]
  | some (rem, caps) =>
    rw [hT] at hmatch
    try dsimp only at hmatch ⊢
    generalize hk : s.length - rem.length = k at hmatch ⊢
    revert hmatch
    match k, s with
    | 0, [] =>
      intro hmatch
      try dsimp only at hmatch ⊢
      have h0 := hmatch _ (List.mem_singleton.mpr rfl)
      try dsimp only at h0
      rw [h0]
      exact List.take_nil
    | 0, c :: s2 =>
      intro hmatch
      try dsimp only at hmatch ⊢
      rw [List.take_zero] at hmatch ⊢
      have h0 := hmatch _ (List.mem_cons_self _ _)
      try dsimp only at h0
      rw [h0]
      rw [hrec _ _ fun r hr => hmatch r (List.mem_cons_of_mem _ hr)]
      rfl
    | n + 1, s =>
      intro hmatch
      try dsimp only at hmatch ⊢
      have h0 := hmatch _ (List.mem_cons_self _ _)
      try dsimp only at h0
      rw [h0]
      rw [hrec _ _ fun r hr => hmatch r (List.mem_cons_of_mem _ hr)]
      exact List.take_append_drop _ s

/-- If every emitted replacement equals its matched text, replacement is the
identity. -/
theorem reScanF_id {σ : Type} (ci : Bool) (re : RegEx)
    (f : σ → List Char → Caps → σ × List Char) :
    ∀ (fuel : Nat) (st : σ) (s : List Char),
      (∀ r ∈ (reScanF ci re f fuel st s).2.2, r.2.2 = r.1) →
      (reScanF ci re f fuel st s).2.1 = s := by
  intro fuel
  induction fuel with
  | zero => intro st s _; rfl
  | succ n ih =>
    intro st s hmatch
    rw [reScanF] at hmatch ⊢
    exact reScanBody_id ci re f _ ih st s hmatch

/-- If every emitted replacement equals its matched text, `replaceAllSt` is
the identity. -/
theorem replaceAllSt_id {σ : Type} (ci : Bool) (re : RegEx)
    (f : σ → List Char → Caps → σ × List Char) (st : σ) (s : List Char)
    (hmatch : ∀ r ∈ (replaceAllSt ci re f st s).2.2, r.2.2 = r.1) :
    (replaceAllSt ci re f st s).2.1 = s :=
  reScanF_id ci re f (s.length + 1) st s hmatch

/-! ## The `server.js` regular expressions, transcribed -/

/-- Literal sequence. -/
def rstr (s : String) : RegEx := .lit s.data

def rchar (c : Char) : RegEx := .lit [c]

def rcat (l : List RegEx) : RegEx := l.foldr .cat .eps

/-- JS `\s` (the whitespace characters relevant to this ASCII setting). -/
def wsCls : RegEx :=
  .cls false [' ', '\t', '\n', '\r', '\x0b', '\x0c', '\xa0'] []

/-- `\s*` -/
def wsStar : RegEx := .star true wsCls

/-- `x+` (greedy). -/
def rplus (r : RegEx) : RegEx := .cat r (.star true r)

/-- `x?` (greedy). -/
def ropt (r : RegEx) : RegEx := .alt r .eps

/-- `[^...]` -/
def nC (cs : List Char) : RegEx := .cls true cs []

/-- `[\s\S]` -/
def anyC : RegEx := .cls true [] []

/-- `\d` -/
def digitCls : RegEx := .cls false [] [('0', '9')]

/-- `["']?` -/
def quoteOpt : RegEx := ropt (.cls false ['"', '\''] [])

/-- `/(<[^>]+\s)(href|src|action)\s*=\s*"([^"]*?)"/gi` (`server.js` 129). -/
def attrDqRE : RegEx :=
  rcat [.grp 1 (rcat [rchar '<', rplus (nC ['>']), wsCls]),
    .grp 2 (.alt (rstr "href") (.alt (rstr "src") (rstr "action"))),
    wsStar, rchar '=', wsStar, rchar '"',
    .grp 3 (.star false (nC ['"'])), rchar '"']

/-- `/(<[^>]+\s)(href|src|action)\s*=\s*'([^']*?)'/gi` (`server.js` 136). -/
def attrSqRE : RegEx :=
  rcat [.grp 1 (rcat [rchar '<', rplus (nC ['>']), wsCls]),
    .grp 2 (.alt (rstr "href") (.alt (rstr "src") (rstr "action"))),
    wsStar, rchar '=', wsStar, rchar '\'',
    .grp 3 (.star false (nC ['\''])), rchar '\'']

/-- `/srcset\s*=\s*"([^"]*)"/gi` (`server.js` 145). -/
def srcsetRE : RegEx :=
  rcat [rstr "srcset", wsStar, rchar '=', wsStar, rchar '"',
    .grp 1 (.star true (nC ['"'])), rchar '"']

/-- `/<script[\s\S]*?<\/script>/gi` (`server.js` 159). -/
def scriptBlockRE : RegEx :=
  rcat [rstr "<script", .star false anyC, rstr "</script>"]

/-- `/url\(\s*['"]?([^'")]+?)['"]?\s*\)/gi` (`server.js` 165). -/
def cssUrlRE : RegEx :=
  rcat [rstr "url(", wsStar, quoteOpt,
    .grp 1 (.cat (nC ['\'', '"', ')']) (.star false (nC ['\'', '"', ')']))),
    quoteOpt, wsStar, rchar ')']

/-- `/<!--DS(\d+)-->/g` (`server.js` 173). -/
def restoreRE : RegEx :=
  rcat [rstr "<!--DS", .grp 1 (rplus digitCls), rstr "-->"]

/-- `(?:width|height)` -/
def widthOrHeight : RegEx := .alt (rstr "width") (rstr "height")

/-- The tracking-pixel pattern (`server.js` 180):
`/<img[^>]+(?:width|height)\s*=\s*["']?1["']?[^>]+(?:width|height)\s*=\s*["']?1["']?[^>]*\/?>/gi`. -/
def imgTrackRE : RegEx :=
  rcat [rstr "<img", rplus (nC ['>']),
    widthOrHeight, wsStar, rchar '=', wsStar, quoteOpt, rchar '1', quoteOpt,
    rplus (nC ['>']),
    widthOrHeight, wsStar, rchar '=', wsStar, quoteOpt, rchar '1', quoteOpt,
    .star true (nC ['>']), ropt (rchar '/'), rchar '>']

/-- The tracking-script pattern (`server.js` 183). -/
def scriptTrackRE : RegEx :=
  rcat [rstr "<script", .star true (nC ['>']), rchar '>',
    .star true (nC ['<']),
    [rstr "google-analytics", rstr "googletagmanager", rstr "gtag",
      rstr "fbq", rstr "_gaq", rcat [rstr "ga", wsStar, rchar '('],
      rstr "analytics.js", rstr "adsbygoogle", rstr "googlesyndication",
      rstr "doubleclick", rstr "hotjar", rstr "clarity", rstr "mixpanel",
      rstr "segment", rstr "amplitude"].foldr .alt (rstr "heap"),
    .star true (nC ['<']), rstr "</script>"]

/-- The tracking-noscript pattern (`server.js` 186). -/
def noscriptTrackRE : RegEx :=
  rcat [rstr "<noscript", .star true (nC ['>']), rchar '>', wsStar,
    rstr "<img", rplus (nC ['>']),
    [rstr "facebook.com/tr", rstr "google-analytics", rstr "googletagmanager",
      rstr "bat.bing"].foldr .alt (rstr "analytics"),
    .star true (nC ['>']), ropt (rchar '/'), rchar '>', wsStar,
    rstr "</noscript>"]

/-! ## Replacement callbacks and the rewriting pipelines -/

/-- JS `\s` as a predicate. -/
def isJsWs (c : Char) : Bool :=
  c = ' ' || c = '\t' || c = '\n' || c = '\r' || c = '\x0b' || c = '\x0c' ||
    c = '\xa0'

/-- `String.prototype.startsWith`. -/
def startsL : List Char → List Char → Bool
  | [], _ => true
  | _ :: _, [] => false
  | p :: pt, c :: ct => p == c && startsL pt ct

/-- Capture group `i` of a match (most recent occurrence wins). -/
def capGet (caps : Caps) (i : Nat) : List Char :=
  ((caps.find? (fun p => p.1 == i)).map (fun p => p.2)).getD []

/-- The attribute callback (`server.js` 130-133 and 137-140), `q` the quote. -/
def attrCb (q : Char) (baseUrl : List Char) (st : Unit) (m : List Char)
    (caps : Caps) : Unit × List Char :=
  let pre := capGet caps 1
  let attr := capGet caps 2
  let url := capGet caps 3
  if startsL "data:".data url || startsL "javascript:".data url ||
      startsL "#".data url then (st, m)
  else (st, pre ++ attr ++ '=' :: q :: (toProxyUrlL baseUrl url ++ [q]))

/-- `String.prototype.trim`. -/
def jsTrim (s : List Char) : List Char :=
  ((s.dropWhile isJsWs).reverse.dropWhile isJsWs).reverse

/-- `split(/\s+/)`: maximal whitespace runs separate the pieces. -/
def splitWsAux : List Char → List Char → List (List Char)
  | [], cur => [cur.reverse]
  | [c], cur => if isJsWs c then [cur.reverse, []] else [(c :: cur).reverse]
  | c :: d :: t, cur =>
    if isJsWs c then
      if isJsWs d then splitWsAux (d :: t) cur
      else cur.reverse :: splitWsAux (d :: t) []
    else splitWsAux (d :: t) (c :: cur)

def splitWs (s : List Char) : List (List Char) := splitWsAux s []

/-- One srcset candidate (`server.js` 147-150): trim, split on whitespace,
rewrite the first piece if non-empty, rejoin with single spaces. -/
def srcsetEntry (baseUrl entry : List Char) : List Char :=
  match splitWs (jsTrim entry) with
  | [] => []
  | p0 :: rest =>
    if p0 ≠ [] then List.intercalate " ".data (toProxyUrlL baseUrl p0 :: rest)
    else List.intercalate " ".data (p0 :: rest)

/-- The srcset callback (`server.js` 146-153). -/
def srcsetCb (baseUrl : List Char) (st : Unit) (m : List Char) (caps : Caps) :
    Unit × List Char :=
  let rewritten := List.intercalate ", ".data
    ((splitCh ',' (capGet caps 1)).map (srcsetEntry baseUrl))
  (st, "srcset=\"".data ++ rewritten ++ "\"".data)

/-- The script-protection callback (`server.js` 159-162): stash the block,
emit a placeholder comment. -/
def scriptProtectCb (st : List (List Char)) (m : List Char) (caps : Caps) :
    List (List Char) × List Char :=
  (st ++ [m], "<!--DS".data ++ (Nat.repr st.length).data ++ "-->".data)

/-- The `url()` callback (`server.js` 166-169). -/
def cssUrlCb (baseUrl : List Char) (st : Unit) (m : List Char) (caps : Caps) :
    Unit × List Char :=
  let url := capGet caps 1
  if startsL "data:".data url then (st, m)
  else (st, "url('".data ++ toProxyUrlL baseUrl url ++ "')".data)

/-- Digit-string to array index (JS coercion of the capture). -/
def digitsToNat (l : List Char) : Nat :=
  l.foldl (fun n c => n * 10 + (c.toNat - 48)) 0

/-- The placeholder-restore callback (`server.js` 173); an out-of-range index
reads `undefined` from the array, which `replace` stringifies. -/
def restoreCb (scripts : List (List Char)) (st : Unit) (m : List Char)
    (caps : Caps) : Unit × List Char :=
  (st, match scripts.get? (digitsToNat (capGet caps 1)) with
    | some sc => sc
    | none => "undefined".data)

/-- `rewriteUrls` (`server.js` 113-176). `new URL(baseUrl)` on line 114 throws
on an unparseable base, hence the `Option`. -/
def rewriteUrlsL (html baseUrl : List Char) : Option (List Char) :=
  match parseAbs baseUrl with
  | none => none
  | some _ =>
    let h1 := (replaceAllSt true attrDqRE (attrCb '"' baseUrl) () html).2.1
    let h2 := (replaceAllSt true attrSqRE (attrCb '\'' baseUrl) () h1).2.1
    let h3 := (replaceAllSt true srcsetRE (srcsetCb baseUrl) () h2).2.1
    let r4 := replaceAllSt true scriptBlockRE scriptProtectCb [] h3
    let h5 := (replaceAllSt true cssUrlRE (cssUrlCb baseUrl) () r4.2.1).2.1
    some (replaceAllSt false restoreRE (restoreCb r4.1) () h5).2.1

def rewriteUrls (html baseUrl : String) : Option String :=
  (rewriteUrlsL html.data baseUrl.data).map fun l => ⟨l⟩

/-- The empty-replacement callback of `stripTrackingElements`. -/
def dropCb (st : Unit) (m : List Char) (caps : Caps) : Unit × List Char :=
  (st, [])

/-- `stripTrackingElements` (`server.js` 178-189): three removal passes. -/
def stripTrackingElementsL (html : List Char) : List Char :=
  let h1 := (replaceAllSt true imgTrackRE dropCb () html).2.1
  let h2 := (replaceAllSt true scriptTrackRE dropCb () h1).2.1
  (replaceAllSt true noscriptTrackRE dropCb () h2).2.1

def stripTrackingElements (html : String) : String :=
  ⟨stripTrackingElementsL html.data⟩

/-! ## Record shape: every emitted replacement is the callback's output -/

theorem reScanBody_shape {σ : Type} (ci : Bool) (re : RegEx)
    (f : σ → List Char → Caps → σ × List Char)
    (recur : σ → List Char → σ × List Char × List MatchRec)
    (hrec : ∀ (st : σ) (s : List Char), ∀ r ∈ (recur st s).2.2,
      ∃ st2, r.2.2 = (f st2 r.1 r.2.1).2)
    (st : σ) (s : List Char) :
    ∀ r ∈ (reScanBody ci re f recur st s).2.2,
      ∃ st2, r.2.2 = (f st2 r.1 r.2.1).2 := by
  rw [reScanBody.eq_def]
  match hT : reTry ci re s with
  | none =>
    try dsimp only
    match s with
    | [] => intro r hr; exact absurd hr (List.not_mem_nil r)
    | c :: s2 =>
      try dsimp only
      exact hrec st s2
  | some (rem, caps) =>
    try dsimp only
    generalize hk : s.length - rem.length = k
    match k, s with
    | 0, [] =>
      try dsimp only
      intro r hr
      rw [List.mem_singleton] at hr
      subst hr
      exact ⟨st, rfl⟩
    | 0, c :: s2 =>
      try dsimp only
      intro r hr
      rcases List.mem_cons.mp hr with h | h
      · subst h; exact ⟨st, rfl⟩
      · exact hrec _ _ r h
    | n + 1, s =>
      try dsimp only
      intro r hr
      rcases List.mem_cons.mp hr with h | h
      · subst h; exact ⟨st, rfl⟩
      · exact hrec _ _ r h

theorem reScanF_shape {σ : Type} (ci : Bool) (re : RegEx)
    (f : σ → List Char → Caps → σ × List Char) :
    ∀ (fuel : Nat) (st : σ) (s : List Char),
      ∀ r ∈ (reScanF ci re f fuel st s).2.2,
        ∃ st2, r.2.2 = (f st2 r.1 r.2.1).2 := by
  intro fuel
  induction fuel with
  | zero => intro st s r hr; exact absurd hr (List.not_mem_nil r)
  | succ n ih =>
    intro st s
    rw [reScanF]
    exact reScanBody_shape ci re f _ ih st s

theorem replaceAllSt_shape {σ : Type} (ci : Bool) (re : RegEx)
    (f : σ → List Char → Caps → σ × List Char) (st : σ) (s : List Char) :
    ∀ r ∈ (replaceAllSt ci re f st s).2.2,
      ∃ st2, r.2.2 = (f st2 r.1 r.2.1).2 :=
  reScanF_shape ci re f (s.length + 1) st s

/-- A Unit-state replacement pass whose callback echoes every recorded match
is the identity. -/
theorem replaceAllSt_unit_id (ci : Bool) (re : RegEx)
    (f : Unit → List Char → Caps → Unit × List Char) (s : List Char)
    (hf : ∀ r ∈ (replaceAllSt ci re f () s).2.2, (f () r.1 r.2.1).2 = r.1) :
    (replaceAllSt ci re f () s).2.1 = s := by
  apply replaceAllSt_id
  intro r hr
  obtain ⟨st2, hsh⟩ := replaceAllSt_shape ci re f () s r hr
  rw [hsh]
  cases st2
  exact hf r hr

/-! ## C3: exclusions of the rewriting pipelines -/

/-- C3 (counterexample): `blob:` references are not excluded — the attribute
pass sends `<a href="blob:x">` to `<a href="/proxy/blob%3Ax">` — and the
srcset pass has no exclusions at all: even a `data:` candidate is rewritten. -/
theorem c3_blob_srcset_rewritten_cex :
    rewriteUrls "<a href=\"blob:x\">" "http://site.test/" =
      some "<a href=\"/proxy/blob%3Ax\">" ∧
    rewriteUrls "<img srcset=\"data:x 1x\">" "http://site.test/" =
      some "<img srcset=\"/proxy/data%3Ax 1x\">" ∧
    ("<a href=\"/proxy/blob%3Ax\">" : String) ≠ "<a href=\"blob:x\">" ∧
    ("<img srcset=\"/proxy/data%3Ax 1x\">" : String) ≠
      "<img srcset=\"data:x 1x\">" := by
  refine ⟨by decide, by decide, by decide, by decide⟩

/-- C3 (amended): only `data:`, `javascript:` and `#`-initial references are
excluded, and only by the quoted-attribute passes; the CSS `url()` pass
excludes only `data:`.  Formally: an attribute pass on content whose every
match has a url capture starting with `data:`, `javascript:` or `#` is the
identity, and the `url()` pass on content whose every url capture starts
with `data:` is the identity.  (`blob:` and `about:` enjoy no exclusion, and
the srcset pass none at all: see the counterexample.) -/
theorem c3_excluded_refs_preserved (h1 h2 h3 baseUrl : List Char) (q1 q2 : Char)
    (hattr1 : ∀ r ∈ (replaceAllSt true attrDqRE (attrCb q1 baseUrl) () h1).2.2,
      (startsL "data:".data (capGet r.2.1 3) ||
        startsL "javascript:".data (capGet r.2.1 3) ||
        startsL "#".data (capGet r.2.1 3)) = true)
    (hattr2 : ∀ r ∈ (replaceAllSt true attrSqRE (attrCb q2 baseUrl) () h2).2.2,
      (startsL "data:".data (capGet r.2.1 3) ||
        startsL "javascript:".data (capGet r.2.1 3) ||
        startsL "#".data (capGet r.2.1 3)) = true)
    (hcss : ∀ r ∈ (replaceAllSt true cssUrlRE (cssUrlCb baseUrl) () h3).2.2,
      startsL "data:".data (capGet r.2.1 1) = true) :
    (replaceAllSt true attrDqRE (attrCb q1 baseUrl) () h1).2.1 = h1 ∧
    (replaceAllSt true attrSqRE (attrCb q2 baseUrl) () h2).2.1 = h2 ∧
    (replaceAllSt true cssUrlRE (cssUrlCb baseUrl) () h3).2.1 = h3 := by
  refine ⟨?_, ?_, ?_⟩
  · apply replaceAllSt_unit_id
    intro r hr
    have hg := hattr1 r hr
    unfold attrCb
    dsimp only
    rw [if_pos hg]
  · apply replaceAllSt_unit_id
    intro r hr
    have hg := hattr2 r hr
    unfold attrCb
    dsimp only
    rw [if_pos hg]
  · apply replaceAllSt_unit_id
    intro r hr
    have hg := hcss r hr
    unfold cssUrlCb
    dsimp only
    rw [if_pos hg]

/-- C3 (witness for the amended theorem), at `<a href="data:x">` (double
quotes), `<a href=\'#t\'>` (single quotes) and `url(data:y)`. -/
theorem c3_excluded_refs_preserved_witness :
    (replaceAllSt true attrDqRE (attrCb '"' "http://site.test/".data) ()
      "<a href=\"data:x\">".data).2.1 = "<a href=\"data:x\">".data ∧
    (replaceAllSt true attrSqRE (attrCb '\'' "http://site.test/".data) ()
      "<a href=\'#t\'>".data).2.1 = "<a href=\'#t\'>".data ∧
    (replaceAllSt true cssUrlRE (cssUrlCb "http://site.test/".data) ()
      "url(data:y)".data).2.1 = "url(data:y)".data :=
  c3_excluded_refs_preserved "<a href=\"data:x\">".data "<a href=\'#t\'>".data
    "url(data:y)".data "http://site.test/".data '"' '\''
    (by decide) (by decide) (by decide)

/-! ## C7: the tracking-pixel stripper -/

/-- C7 (code bug): the stripper does remove `1x1` images in either attribute
order, but the pattern fragment matching the attribute value — an optional
quote, the character `1`, an optional quote — also accepts the `1` at the
start of `100`, so `<img width="100" height="100" src="x.png">` is removed
as well, contradicting the specified behaviour that it is left untouched.
Content without such images is preserved. -/
theorem c7_pixel_strip_overmatches :
    stripTrackingElements "<img width=\"1\" height=\"1\" src=\"t.png\">" = "" ∧
    stripTrackingElements "<img height=\"1\" width=\"1\" src=\"t.png\">" = "" ∧
    stripTrackingElements "<img width=\"100\" height=\"100\" src=\"x.png\">" = "" ∧
    stripTrackingElements "<p>hello</p>" = "<p>hello</p>" := by
  refine ⟨by decide, by decide, by decide, by decide⟩

/-! ## The Fetcher (`fetchWithRedirects`, `server.js` 54-111) -/

def MAX_REDIRECTS : Nat := 10

/-- What the network answers a `protocol.get` for a URL with: a `3xx` with a
`location` header, a terminal response, an `error` event, or the 10-second
timeout. -/

inductive NetResp
  | redirect (location : List Char)
  | success (statusCode : Nat) (body : List Char)
  | netError (msg : List Char)
  | timeout
  deriving DecidableEq

abbrev Net := List Char → NetResp

/-- How a `fetchWithRedirects` call ends: the callback gets a response, the
callback gets an error, or an exception escapes the response handler
(`new URL(location, targetUrl)` throwing outside the `try`). -/

inductive FetchResult
  | ok (statusCode : Nat) (body finalUrl : List Char)
  | fetchErr (msg : List Char)
  | crash
  deriving DecidableEq

/-- `fetchWithRedirects` (`server.js` 54-111), fuel-indexed.  The bound check
(line 55) runs before the `new URL` parse and before any request; a redirect
response recurses on `new URL(location, targetUrl).href` with the count
incremented (line 80); terminal responses call back with
`finalUrl: targetUrl` (line 94); the 10s timeout and `error` events call
back with the corresponding `Error` (lines 99-106).  Alongside the result it
returns the trace of URLs actually requested. -/
def fetchGo (net : Net) : Nat → List Char → Nat →
    List (List Char) × FetchResult
  | fuel, targetUrl, redirectCount =>
    if MAX_REDIRECTS < redirectCount then
      ([], .fetchErr "Too many redirects".data)
    else
      match parseAbs targetUrl with
      | none => ([], .fetchErr "Invalid URL".data)
      | some _ =>
        match fuel with
        | 0 => ([], .crash)
        | fuel + 1 =>
          match net targetUrl with
          | .redirect location =>
            match resolveHref location targetUrl with
            | none => ([targetUrl], .crash)
            | some redirectUrl =>
              let r := fetchGo net fuel redirectUrl (redirectCount + 1)
              (targetUrl :: r.1, r.2)
          | .success sc body => ([targetUrl], .ok sc body targetUrl)
          | .netError msg => ([targetUrl], .fetchErr msg)
          | .timeout => ([targetUrl], .fetchErr "Request timed out".data)

/-- The Dispatcher's entry point `fetchWithRedirects(targetUrl, 0, cb, opts)`
(`server.js` 357): from count 0 at most 12 invocations can occur (counts 0
to 11), so fuel `MAX_REDIRECTS + 2` never runs out. -/
def fetchWithRedirects (net : Net) (targetUrl : List Char) :
    List (List Char) × FetchResult :=
  fetchGo net (MAX_REDIRECTS + 2) targetUrl 0

/-- Along a chain that redirects `u i` to `u (i+1)` below hop 10 and answers
a terminal response at `u 10`, the fetch from `u c` (fuel as the wrapper
gives it) requests exactly `u c, …, u 10` and returns the terminal response
with `finalUrl = u 10`. -/
theorem fetchGo_chain_ok (net : Net) (u : Nat → List Char) (sc : Nat)
    (body : List Char)
    (hstep : ∀ i, i < 10 → (parseAbs (u i)).isSome = true ∧
      net (u i) = .redirect (u (i + 1)) ∧
      resolveHref (u (i + 1)) (u i) = some (u (i + 1)))
    (hlast : (parseAbs (u 10)).isSome = true)
    (hsucc : net (u 10) = .success sc body) :
    ∀ n c, c + n = 10 →
      fetchGo net (n + 2) (u c) c =
        ((List.range (n + 1)).map (fun j => u (c + j)), .ok sc body (u 10)) := by
  intro n
  induction n with
  | zero =>
    intro c hc
    rw [Nat.add_zero] at hc
    subst hc
    rw [fetchGo]
    simp only [MAX_REDIRECTS]
    rw [if_neg (by omega)]
    obtain ⟨p, hp⟩ := Option.isSome_iff_exists.mp hlast
    rw [hp]
    dsimp only
    rw [hsucc]
    rfl
  | succ n ih =>
    intro c hc
    have hclt : c < 10 := by omega
    obtain ⟨hps, hnet, hres⟩ := hstep c hclt
    rw [fetchGo]
    simp only [MAX_REDIRECTS]
    rw [if_neg (by omega)]
    obtain ⟨p, hp⟩ := Option.isSome_iff_exists.mp hps
    rw [hp]
    dsimp only
    rw [hnet]
    dsimp only
    rw [hres]
    have ihr := ih (c + 1) (by omega)
    dsimp only
    rw [ihr]
    dsimp only
    rw [Prod.mk.injEq]
    refine ⟨?_, rfl⟩
    conv_rhs => rw [List.range_succ_eq_map, List.map_cons, List.map_map]
    refine congrArg (fun l => u (c + 0) :: l) ?_
    apply List.map_congr_left
    intro j hj
    show u (c + 1 + j) = u (c + (j + 1))
    exact congrArg u (by omega)

/-- Along a chain that redirects at every hop up to `u 10`, the fetch from
`u c` requests exactly `u c, …, u 10` and fails with `Too many redirects`:
the count reaches 11 and the bound check fires before a 12th request. -/
theorem fetchGo_chain_toomany (net : Net) (u : Nat → List Char)
    (hstep : ∀ i, i ≤ 10 → (parseAbs (u i)).isSome = true ∧
      net (u i) = .redirect (u (i + 1)) ∧
      resolveHref (u (i + 1)) (u i) = some (u (i + 1))) :
    ∀ n c, c + n = 11 →
      fetchGo net (n + 1) (u c) c =
        ((List.range n).map (fun j => u (c + j)),
          .fetchErr "Too many redirects".data) := by
  intro n
  induction n with
  | zero =>
    intro c hc
    rw [Nat.add_zero] at hc
    subst hc
    rw [fetchGo]
    simp only [MAX_REDIRECTS]
    rw [if_pos (by omega)]
    rfl
  | succ n ih =>
    intro c hc
    have hcle : c ≤ 10 := by omega
    obtain ⟨hps, hnet, hres⟩ := hstep c hcle
    rw [fetchGo]
    simp only [MAX_REDIRECTS]
    rw [if_neg (by omega)]
    obtain ⟨p, hp⟩ := Option.isSome_iff_exists.mp hps
    rw [hp]
    dsimp only
    rw [hnet]
    dsimp only
    rw [hres]
    have ihr := ih (c + 1) (by omega)
    dsimp only
    rw [ihr]
    dsimp only
    rw [Prod.mk.injEq]
    refine ⟨?_, rfl⟩
    conv_rhs => rw [List.range_succ_eq_map, List.map_cons, List.map_map]
    refine congrArg (fun l => u (c + 0) :: l) ?_
    apply List.map_congr_left
    intro j hj
    show u (c + 1 + j) = u (c + (j + 1))
    exact congrArg u (by omega)


/-! ## The Dispatcher (`app.get('/proxy/*')`, `server.js` 326-511) -/

/-- The module-level mutable state (`server.js` 42-43). -/
structure ProxyState where
  blockedCount : Nat
  adBlockEnabled : Bool
  deriving DecidableEq

/-- A response sent to the proxy client: `res.status(s).json({error})`,
`res.status(204).end()`, or the single content response the body pipeline
(`server.js` 370-509) produces from a successful fetch. -/
inductive Response
  | json (status : Nat) (error : List Char)
  | noContent
  | content (status : Nat) (body finalUrl : List Char)
  deriving DecidableEq

/-- One invocation of the fetch callback (`server.js` 357): `(err, null)` or
`(null, response)`. -/
inductive CbEvent
  | cbErr (msg : List Char)
  | cbOk (statusCode : Nat) (body finalUrl : List Char)
  deriving DecidableEq

/-- The response determined by one callback invocation (`server.js`
360-368 for errors — 508, 504, then the 500 fallback — and 370-509 for a
fetched response). -/
def respondOfEv : CbEvent → Response
  | .cbErr msg =>
    if msg = "Too many redirects".data then
      .json 508 "Too many redirects".data
    else if msg = "Request timed out".data then
      .json 504 "Request timed out".data
    else .json 500 ("Failed to fetch: ".data ++ msg)
  | .cbOk sc body finalUrl => .content sc body finalUrl

/-- The callback invocation a fetch outcome produces (`crash` never invokes
the callback). -/
def evOf : FetchResult → Option CbEvent
  | .ok sc body finalUrl => some (.cbOk sc body finalUrl)
  | .fetchErr msg => some (.cbErr msg)
  | .crash => none

/-- The ad-block gate (`server.js` 334-343): consulted only when
`adBlockEnabled`; a hostname is extracted by `new URL`, whose failure the
empty `catch` swallows (gate open). -/
def adGate (isB : List Char → Bool) (st : ProxyState)
    (targetUrl : List Char) : Bool :=
  if st.adBlockEnabled then
    match parseAbs targetUrl with
    | some p => isB (urlHostname p)
    | none => false
  else false

/-- What one `GET /proxy/*` request leaves behind: the state after it, the
response sent (`none` when an uncaught exception yields no handler
response), whether `fetchWithRedirects` was invoked, and the URLs it
requested. -/
structure DispatchResult where
  state : ProxyState
  response : Option Response
  fetcherCalled : Bool
  requests : List (List Char)
  deriving DecidableEq

/-- The `/proxy/*` handler (`server.js` 326-511) on a query-free request
(`req.query` empty skips the augmentation of lines 346-353):
`decodeURIComponent` of the wildcard, the missing-target 400, the ad-block
gate, then the fetch and the response mapping. -/
def handleProxy (isB : List Char → Bool) (net : Net) (st : ProxyState)
    (rawParam : List Char) : DispatchResult :=
  match decodeUriComponentL rawParam with
  | none => ⟨st, none, false, []⟩
  | some targetUrl =>
    if targetUrl = [] then
      ⟨st, some (.json 400 "Missing target URL".data), false, []⟩
    else if adGate isB st targetUrl then
      ⟨⟨st.blockedCount + 1, st.adBlockEnabled⟩, some .noContent, false, []⟩
    else
      let fr := fetchWithRedirects net targetUrl
      ⟨st, (evOf fr.2).map respondOfEv, true, fr.1⟩

/-- One fetch-callback invocation against the `responded` flag (`server.js`
355-359): a later invocation returns without sending; the first sends the
response it determines. -/
def cbStep : Bool × List Response → CbEvent → Bool × List Response
  | (true, out), _ => (true, out)
  | (false, out), ev => (true, out ++ [respondOfEv ev])

/-- The responses sent over a whole sequence of callback invocations,
starting from `responded = false`. -/
def runCallbacks (events : List CbEvent) : List Response :=
  (events.foldl cbStep (false, [])).2

theorem respondOfEv_ne_noContent (ev : CbEvent) :
    respondOfEv ev ≠ .noContent := by
  cases ev with
  | cbErr msg =>
    unfold respondOfEv
    dsimp only
    split_ifs <;> exact fun h => nomatch h
  | cbOk sc body fu => exact fun h => nomatch h

theorem map_respondOfEv_ne_noContent (o : Option CbEvent) :
    o.map respondOfEv ≠ some Response.noContent := by
  cases o with
  | none => exact fun h => nomatch h
  | some ev =>
    intro h
    exact respondOfEv_ne_noContent ev (Option.some.inj h)

theorem adGate_gateTrue (isB : List Char → Bool) (st : ProxyState)
    (t : List Char) (p : UrlParsed) (hab : st.adBlockEnabled = true)
    (hp : parseAbs t = some p) (hblk : isB (urlHostname p) = true) :
    adGate isB st t = true := by
  unfold adGate
  rw [hab, if_pos rfl, hp]
  exact hblk

theorem adGate_off (isB : List Char → Bool) (st : ProxyState)
    (t : List Char) (hab : st.adBlockEnabled = false) :
    adGate isB st t = false := by
  unfold adGate
  rw [hab]
  simp

theorem adGate_parse_none (isB : List Char → Bool) (st : ProxyState)
    (t : List Char) (hpar : parseAbs t = none) :
    adGate isB st t = false := by
  unfold adGate
  rw [hpar]
  cases h : st.adBlockEnabled <;> simp

theorem fetchWithRedirects_parse_none (net : Net) (t : List Char)
    (hpar : parseAbs t = none) :
    fetchWithRedirects net t = ([], .fetchErr "Invalid URL".data) := by
  rw [fetchWithRedirects, fetchGo]
  simp only [MAX_REDIRECTS]
  rw [if_neg (by omega), hpar]

/-- C5: for a request whose decoded target parses to a gate-blocked
hostname: with `adBlockEnabled` true the Dispatcher responds 204 with empty
body, increments `blockedCount` by exactly 1 and never invokes the Fetcher;
with it false the request reaches the Fetcher, the counter is unchanged and
no 204 is returned. -/
theorem c5_adblock_gate (isB : List Char → Bool) (net : Net) (n : Nat)
    (raw target : List Char) (p : UrlParsed)
    (hdec : decodeUriComponentL raw = some target) (hne : target ≠ [])
    (hp : parseAbs target = some p) (hblk : isB (urlHostname p) = true) :
    handleProxy isB net ⟨n, true⟩ raw =
      ⟨⟨n + 1, true⟩, some .noContent, false, []⟩ ∧
    (handleProxy isB net ⟨n, false⟩ raw).fetcherCalled = true ∧
    (handleProxy isB net ⟨n, false⟩ raw).state = ⟨n, false⟩ ∧
    (handleProxy isB net ⟨n, false⟩ raw).response ≠ some .noContent := by
  have hg1 : adGate isB ⟨n, true⟩ target = true :=
    adGate_gateTrue isB ⟨n, true⟩ target p rfl hp hblk
  have hg2 : adGate isB ⟨n, false⟩ target = false :=
    adGate_off isB ⟨n, false⟩ target rfl
  refine ⟨?_, ?_, ?_, ?_⟩
  · unfold handleProxy
    rw [hdec]
    dsimp only
    rw [if_neg hne, if_pos hg1]
  · unfold handleProxy
    rw [hdec]
    dsimp only
    rw [if_neg hne, if_neg (by rw [hg2]; exact fun h => nomatch h)]
  · unfold handleProxy
    rw [hdec]
    dsimp only
    rw [if_neg hne, if_neg (by rw [hg2]; exact fun h => nomatch h)]
  · unfold handleProxy
    rw [hdec]
    dsimp only
    rw [if_neg hne, if_neg (by rw [hg2]; exact fun h => nomatch h)]
    exact map_respondOfEv_ne_noContent _

/-- C5 (witness), at target `http://ads.test/` with `ads.test` the blocked
hostname and counter 7. -/
theorem c5_adblock_gate_witness :
    handleProxy (fun h => h == "ads.test".data) (fun _ => .timeout) ⟨7, true⟩
        "http://ads.test/".data =
      ⟨⟨8, true⟩, some .noContent, false, []⟩ ∧
    (handleProxy (fun h => h == "ads.test".data) (fun _ => .timeout) ⟨7, false⟩
        "http://ads.test/".data).fetcherCalled = true ∧
    (handleProxy (fun h => h == "ads.test".data) (fun _ => .timeout) ⟨7, false⟩
        "http://ads.test/".data).state = ⟨7, false⟩ ∧
    (handleProxy (fun h => h == "ads.test".data) (fun _ => .timeout) ⟨7, false⟩
        "http://ads.test/".data).response ≠ some .noContent :=
  c5_adblock_gate (fun h => h == "ads.test".data) (fun _ => .timeout) 7
    "http://ads.test/".data "http://ads.test/".data
    (.special "http".data "ads.test".data "/".data none none)
    (by decide) (by decide) (by decide) (by decide)


/-- C4: a redirect chain of exactly 10 hops succeeds, requesting
`u 0, …, u 10` and reporting `finalUrl = u 10`; a chain of 11 hops requests
`u 0, …, u 10` and fails with `Too many redirects` before any further
request — the bound check precedes each fetch attempt.  The Dispatcher
surfaces that error as status 508. -/
theorem c4_redirect_chain_bound (u : Nat → List Char) (net1 net2 : Net)
    (sc : Nat) (body : List Char)
    (hstep1 : ∀ i, i < 10 → (parseAbs (u i)).isSome = true ∧
      net1 (u i) = .redirect (u (i + 1)) ∧
      resolveHref (u (i + 1)) (u i) = some (u (i + 1)))
    (hlast1 : (parseAbs (u 10)).isSome = true)
    (hsucc1 : net1 (u 10) = .success sc body)
    (hstep2 : ∀ i, i ≤ 10 → (parseAbs (u i)).isSome = true ∧
      net2 (u i) = .redirect (u (i + 1)) ∧
      resolveHref (u (i + 1)) (u i) = some (u (i + 1))) :
    fetchWithRedirects net1 (u 0) =
      ((List.range 11).map u, .ok sc body (u 10)) ∧
    fetchWithRedirects net2 (u 0) =
      ((List.range 11).map u, .fetchErr "Too many redirects".data) ∧
    respondOfEv (.cbErr "Too many redirects".data) =
      .json 508 "Too many redirects".data := by
  refine ⟨?_, ?_, by decide⟩
  · have h := fetchGo_chain_ok net1 u sc body hstep1 hlast1 hsucc1 10 0 rfl
    rw [fetchWithRedirects]
    show fetchGo net1 (10 + 2) (u 0) 0 = _
    rw [h]
    refine congrArg (fun l => (l, FetchResult.ok sc body (u 10))) ?_
    apply List.map_congr_left
    intro j hj
    exact congrArg u (by omega)
  · have h := fetchGo_chain_toomany net2 u hstep2 11 0 rfl
    rw [fetchWithRedirects]
    show fetchGo net2 (11 + 1) (u 0) 0 = _
    rw [h]
    refine congrArg
      (fun l => (l, FetchResult.fetchErr "Too many redirects".data)) ?_
    apply List.map_congr_left
    intro j hj
    exact congrArg u (by omega)

/-- The concrete chain `http://h0.test/ → … → http://h10.test/` (clamped at
10, so the eleventh hop self-redirects). -/
def c4u (i : Nat) : List Char :=
  "http://h".data ++ (Nat.repr (min i 10)).data ++ ".test/".data

def c4net1 (url : List Char) : NetResp :=
  let d := digitsToNat ((url.drop 8).takeWhile Char.isDigit)
  if 10 ≤ d then .success 200 "ok".data else .redirect (c4u (d + 1))

def c4net2 (url : List Char) : NetResp :=
  let d := digitsToNat ((url.drop 8).takeWhile Char.isDigit)
  .redirect (c4u (d + 1))

/-- C4 (witness), on the concrete chain: `c4net1` answers 200 at hop 10,
`c4net2` keeps redirecting. -/
theorem c4_redirect_chain_bound_witness :
    fetchWithRedirects c4net1 (c4u 0) =
      ((List.range 11).map c4u, .ok 200 "ok".data (c4u 10)) ∧
    fetchWithRedirects c4net2 (c4u 0) =
      ((List.range 11).map c4u, .fetchErr "Too many redirects".data) ∧
    respondOfEv (.cbErr "Too many redirects".data) =
      .json 508 "Too many redirects".data :=
  c4_redirect_chain_bound c4u c4net1 c4net2 200 "ok".data
    (by decide) (by decide) (by decide) (by decide)

/-- C6 (counterexample): for the unparseable decoded target `notaurl` the
Dispatcher does not respond 400 and does invoke the Fetcher: the gate's
`catch` swallows the parse failure, `fetchWithRedirects` is called, its own
`new URL` throw is caught and surfaced as
`500 {error: "Failed to fetch: Invalid URL"}` (no network request is
issued). -/
theorem c6_unparseable_500_cex :
    handleProxy (fun _ => false) (fun _ => .timeout) ⟨0, true⟩ "notaurl".data =
      ⟨⟨0, true⟩, some (.json 500 "Failed to fetch: Invalid URL".data),
        true, []⟩ := by decide

/-- C6 (amended): a missing target draws
`400 {error: "Missing target URL"}` without invoking the Fetcher, but an
unparseable target is passed to the Fetcher (which issues no network
request) and draws `500 {error: "Failed to fetch: Invalid URL"}` — both
bodies of shape `{error: string}`. -/
theorem c6_missing_400_unparseable_500 (isB : List Char → Bool) (net : Net) (st : ProxyState)
    (raw target : List Char)
    (hdec : decodeUriComponentL raw = some target) (hne : target ≠ [])
    (hpar : parseAbs target = none) :
    handleProxy isB net st [] =
      ⟨st, some (.json 400 "Missing target URL".data), false, []⟩ ∧
    handleProxy isB net st raw =
      ⟨st, some (.json 500 "Failed to fetch: Invalid URL".data), true, []⟩ := by
  constructor
  · rfl
  · unfold handleProxy
    rw [hdec]
    dsimp only
    rw [if_neg hne,
      if_neg (by rw [adGate_parse_none isB st target hpar]; exact fun h => nomatch h),
      fetchWithRedirects_parse_none net target hpar]
    dsimp only [evOf, Option.map]
    rw [show respondOfEv (.cbErr "Invalid URL".data) =
      .json 500 "Failed to fetch: Invalid URL".data from by decide]

/-- C6 (witness for the amended theorem), at target `notaurl`. -/
theorem c6_missing_400_unparseable_500_witness :
    handleProxy (fun h => h == "ads.test".data) (fun _ => .timeout) ⟨0, true⟩ [] =
      ⟨⟨0, true⟩, some (.json 400 "Missing target URL".data), false, []⟩ ∧
    handleProxy (fun h => h == "ads.test".data) (fun _ => .timeout) ⟨0, true⟩
        "notaurl".data =
      ⟨⟨0, true⟩, some (.json 500 "Failed to fetch: Invalid URL".data), true, []⟩ :=
  c6_missing_400_unparseable_500 (fun h => h == "ads.test".data) (fun _ => .timeout) ⟨0, true⟩
    "notaurl".data "notaurl".data (by decide) (by decide) (by decide)

/-- A parsed JSON body field as `express.json()` delivers it (`jundefined`
for an absent field). -/
inductive JsVal
  | jbool (b : Bool)
  | jnum (n : Int)
  | jstr (s : List Char)
  | jnull
  | jundefined
  deriving DecidableEq

/-- `app.post('/adblock')` (`server.js` 49-52):
`adBlockEnabled = req.body.enabled !== false` (strict inequality), then
`res.json({enabled: adBlockEnabled})`. -/
def adblockPost (st : ProxyState) (enabled : JsVal) : ProxyState × JsVal :=
  let v : Bool := enabled != JsVal.jbool false
  (⟨st.blockedCount, v⟩, .jbool v)

/-- C9: `adBlockEnabled` becomes false exactly when the body's `enabled`
field is the boolean `false`; every other value (true, absent, non-boolean)
sets it to true; the response reports the resulting value and
`blockedCount` is untouched. -/
theorem c9_adblock_toggle (st : ProxyState) (e : JsVal) :
    ((adblockPost st e).1.adBlockEnabled = false ↔ e = JsVal.jbool false) ∧
    (adblockPost st e).2 = .jbool (adblockPost st e).1.adBlockEnabled ∧
    (adblockPost st e).1.blockedCount = st.blockedCount := by
  refine ⟨?_, rfl, rfl⟩
  show (e != JsVal.jbool false) = false ↔ e = JsVal.jbool false
  simp [bne]

theorem foldl_cbStep_responded :
    ∀ (es : List CbEvent) (out : List Response),
      es.foldl cbStep (true, out) = (true, out) := by
  intro es
  induction es with
  | nil => intro out; rfl
  | cons e t ih =>
    intro out
    rw [List.foldl_cons]
    exact ih out

/-- C10: over any sequence of fetch-callback invocations at most one
response is sent, and the first invocation alone determines it: the
`responded` flag discards all later invocations. -/
theorem c10_single_response (events : List CbEvent) :
    (runCallbacks events).length ≤ 1 ∧
    (∀ (e : CbEvent) (es2 : List CbEvent),
      runCallbacks (e :: es2) = [respondOfEv e]) := by
  have hcons : ∀ (e : CbEvent) (es2 : List CbEvent),
      runCallbacks (e :: es2) = [respondOfEv e] := by
    intro e es2
    unfold runCallbacks
    rw [List.foldl_cons]
    show (es2.foldl cbStep (true, [respondOfEv e])).2 = _
    rw [foldl_cbStep_responded]
  refine ⟨?_, hcons⟩
  cases events with
  | nil => simp [runCallbacks]
  | cons e es2 =>
    rw [hcons e es2]
    simp

end Drift
